import Mathlib

/-!
Work division of alpaka: embedding and verification.

Embedding of `include/alpaka/core/WorkDivision.hpp` (hardware limit
aggregation, `detail::nextLowerOrEqualFactor`, `getValidWorkExtent`) and of
the CUDA work division query of `include/alpaka/cuda/WorkDiv.hpp`.

`std::size_t` values are natural numbers.  The only operation of the
partitioning whose result can leave the range of `std::size_t` is the product
of a vector (`Vec<3u>::prod`), so the interpretation of that product is a
parameter of the embedding (`SizeArith`): exact, or reduced modulo `2 ^ 64`.
Whether the `assert` lines are active is a parameter too (`NDEBUG`).
-/

namespace alpaka

/-! ## Data model -/

/-- Number of value bits of `std::size_t`. -/
def sizeBits : Nat := 64

/-- The value `std::numeric_limits<std::size_t>::max()`. -/
def sizeMax : Nat := 2 ^ sizeBits - 1

/-- Interpretation of `std::size_t` multiplication: over the unbounded natural
numbers, or wrapping modulo `2 ^ sizeBits` as the machine does. -/
inductive SizeArith where
  | exact
  | wrapping
  deriving DecidableEq, Repr

/-- Reduction of an exact value to the value the chosen arithmetic stores. -/
def SizeArith.wrap : SizeArith → Nat → Nat
  | SizeArith.exact, n => n
  | SizeArith.wrapping, n => n % 2 ^ sizeBits

/-- Modelled from the spec: the class `alpaka::Vec<3u>` of `core/Vec.hpp`, a
vector of three `std::size_t` components; `x`, `y`, `z` are the components at
index `0u`, `1u`, `2u`. -/
structure Vec3 where
  x : Nat
  y : Nat
  z : Nat
  deriving DecidableEq, Repr

/-- Modelled from the spec: `Vec<3u>::prod` of `core/Vec.hpp`, the product of
all three components, here without reduction. -/
def Vec3.prodExact (v : Vec3) : Nat := v.x * v.y * v.z

/-- Modelled from the spec: `Vec<3u>::prod` of `core/Vec.hpp` as a
`std::size_t` value under the chosen arithmetic. -/
def Vec3.prod (A : SizeArith) (v : Vec3) : Nat := A.wrap v.prodExact

/-- Modelled from the spec: the device properties a back-end reports through
`DeviceManager<TAcc>::getCurrentDevice().getProperties()`; only the two fields
read by the work division are kept. -/
structure DeviceProperties where
  m_v3uiBlockKernelsExtentMax : Vec3
  m_uiBlockKernelsCountMax : Nat
  deriving DecidableEq, Repr

/-- Modelled from the spec: `alpaka::WorkExtent`, the pair of the grid blocks
extent and the block kernels extent, in the order of its constructor. -/
structure WorkExtent where
  gridBlocksExtent : Vec3
  blockKernelsExtent : Vec3
  deriving DecidableEq, Repr

/-- Ways in which a run does not return a value. -/
inductive Fault where
  | assertion
  | divisionByZero
  | outOfFuel
  deriving DecidableEq, Repr

deriving instance DecidableEq for Except

/-! ## Hardware limit aggregation -/

namespace detail

/-- Body of `detail::CorrectMaxBlockKernelExtent::operator()`: the accumulator is
replaced by its component-wise minimum with the back-end's maximum block
extent.  A back-end is given by the properties of its current device. -/
def CorrectMaxBlockKernelExtent (v3uiBlockKernelExtent : Vec3) (acc : DeviceProperties) : Vec3 :=
  let v3uiBlockKernelsExtentMax := acc.m_v3uiBlockKernelsExtentMax
  { x := min v3uiBlockKernelExtent.x v3uiBlockKernelsExtentMax.x
    y := min v3uiBlockKernelExtent.y v3uiBlockKernelsExtentMax.y
    z := min v3uiBlockKernelExtent.z v3uiBlockKernelsExtentMax.z }

/-- Body of `detail::CorrectMaxBlockKernelCount::operator()`. -/
def CorrectMaxBlockKernelCount (uiBlockKernelCount : Nat) (acc : DeviceProperties) : Nat :=
  let uiBlockKernelCountMax := acc.m_uiBlockKernelsCountMax
  min uiBlockKernelCount uiBlockKernelCountMax

/-- The function `detail::nextLowerOrEqualFactor`.  The loop
`while((uiDividend%uiDivisor) != 0) --uiDivisor;` is a recursion on the
divisor; evaluating the remainder with divisor `0` is a division by zero. -/
def nextLowerOrEqualFactor : (uiMaxDivisor : Nat) → (uiDividend : Nat) → Except Fault Nat
  | 0, _ => Except.error Fault.divisionByZero
  | uiDivisor + 1, uiDividend =>
    if uiDividend % (uiDivisor + 1) ≠ 0 then
      nextLowerOrEqualFactor uiDivisor uiDividend
    else
      Except.ok (uiDivisor + 1)

end detail

/-- The function `getMaxBlockKernelExtentEnabledAccelerators`;
`boost::mpl::for_each` visits the enabled accelerators in list order. -/
def getMaxBlockKernelExtentEnabledAccelerators (EnabledAccelerators : List DeviceProperties) : Vec3 :=
  EnabledAccelerators.foldl detail.CorrectMaxBlockKernelExtent
    { x := sizeMax, y := sizeMax, z := sizeMax }

/-- The function `getMaxBlockKernelCountEnabledAccelerators`. -/
def getMaxBlockKernelCountEnabledAccelerators (EnabledAccelerators : List DeviceProperties) : Nat :=
  EnabledAccelerators.foldl detail.CorrectMaxBlockKernelCount sizeMax

/-! ## Partitioning -/

/-- Lines 168-171 of `getValidWorkExtent`: the maximum block extent restricted
to the grid extent, component by component. -/
def clipToGrid (v3uiMaxBlockKernelsExtent v3uiGridKernelsExtent : Vec3) : Vec3 :=
  { x := min v3uiMaxBlockKernelsExtent.x v3uiGridKernelsExtent.x
    y := min v3uiMaxBlockKernelsExtent.y v3uiGridKernelsExtent.y
    z := min v3uiMaxBlockKernelsExtent.z v3uiGridKernelsExtent.z }

/-- Lines 181-184 of `getValidWorkExtent`: one round of the clipping loop. -/
def halve (v : Vec3) : Vec3 :=
  { x := max 1 (v.x / 2)
    y := max 1 (v.y / 2)
    z := max 1 (v.z / 2) }

/-- Lines 179-185 of `getValidWorkExtent`: the loop
`while(v.prod() > uiMaxBlockKernelsCount) v = halve(v);`.  Each evaluation of
the loop condition uses one unit of fuel. -/
def halveWhile (A : SizeArith) (uiMaxBlockKernelsCount : Nat) : Nat → Vec3 → Except Fault Vec3
  | 0, _ => Except.error Fault.outOfFuel
  | fuel + 1, v =>
    if v.prod A > uiMaxBlockKernelsCount then
      halveWhile A uiMaxBlockKernelsCount fuel (halve v)
    else
      Except.ok v

/-- The loop of `halveWhile` with a ghost counter: the number of times the
loop body has run when the loop is left. -/
def halveRounds (A : SizeArith) (uiMaxBlockKernelsCount : Nat) : Nat → Vec3 → Except Fault Nat
  | 0, _ => Except.error Fault.outOfFuel
  | fuel + 1, v =>
    if v.prod A > uiMaxBlockKernelsCount then
      (halveRounds A uiMaxBlockKernelsCount fuel (halve v)).map (· + 1)
    else
      Except.ok 0

/-- Lines 173-186 of `getValidWorkExtent`: the clipping to the maximum number
of kernels per block, guarded by the comparison of the product. -/
def clipToCount (A : SizeArith) (fuel : Nat) (uiMaxBlockKernelsCount : Nat)
    (v3uiMaxBlockKernelsExtent : Vec3) : Except Fault Vec3 :=
  let uiBlockKernelsCount := v3uiMaxBlockKernelsExtent.prod A
  if uiBlockKernelsCount > uiMaxBlockKernelsCount then
    halveWhile A uiMaxBlockKernelsCount fuel v3uiMaxBlockKernelsExtent
  else
    Except.ok v3uiMaxBlockKernelsExtent

/-- Unsigned division `a / b` of the source; a zero divisor is a fault. -/
def divide (a b : Nat) : Except Fault Nat :=
  if b = 0 then Except.error Fault.divisionByZero else Except.ok (a / b)

/-- Lines 151-163 of `getValidWorkExtent`: the limits the partition is computed
against, those of the device of `TAcc` when the selection is adaptive and the
aggregate of all enabled accelerators otherwise. -/
def maxBlockLimits (TAcc : DeviceProperties) (EnabledAccelerators : List DeviceProperties)
    (bAdaptiveBlockKernelsExtent : Bool) : DeviceProperties :=
  if bAdaptiveBlockKernelsExtent then
    { m_v3uiBlockKernelsExtentMax := TAcc.m_v3uiBlockKernelsExtentMax
      m_uiBlockKernelsCountMax := TAcc.m_uiBlockKernelsCountMax }
  else
    { m_v3uiBlockKernelsExtentMax := getMaxBlockKernelExtentEnabledAccelerators EnabledAccelerators
      m_uiBlockKernelsCountMax := getMaxBlockKernelCountEnabledAccelerators EnabledAccelerators }

/-- The function `getValidWorkExtent<TAcc>`.  `TAcc` stands for the properties
of the current device of the accelerator the template is instantiated with,
`EnabledAccelerators` for those of the enabled accelerators, `fuel` bounds the
evaluations of the clipping loop condition.  `NDEBUG` tells whether the macro of
that name is defined in the build: the three `assert` lines abort the run on a
false condition when it is not defined and are compiled out when it is. -/
def getValidWorkExtent (NDEBUG : Bool) (A : SizeArith) (fuel : Nat) (TAcc : DeviceProperties)
    (EnabledAccelerators : List DeviceProperties)
    (v3uiGridKernelsExtent : Vec3) (bAdaptiveBlockKernelsExtent : Bool) :
    Except Fault WorkExtent :=
  if NDEBUG = false ∧ ¬ (v3uiGridKernelsExtent.x > 0) then Except.error Fault.assertion
  else if NDEBUG = false ∧ ¬ (v3uiGridKernelsExtent.y > 0) then Except.error Fault.assertion
  else if NDEBUG = false ∧ ¬ (v3uiGridKernelsExtent.z > 0) then Except.error Fault.assertion
  else
    let limits := maxBlockLimits TAcc EnabledAccelerators bAdaptiveBlockKernelsExtent
    let uiMaxBlockKernelsCount := limits.m_uiBlockKernelsCountMax
    let v3uiMaxBlockKernelsExtent :=
      clipToGrid limits.m_v3uiBlockKernelsExtentMax v3uiGridKernelsExtent
    do
      let v3uiMaxBlockKernelsExtent ←
        clipToCount A fuel uiMaxBlockKernelsCount v3uiMaxBlockKernelsExtent
      let bx ← detail.nextLowerOrEqualFactor v3uiMaxBlockKernelsExtent.x v3uiGridKernelsExtent.x
      let by_ ← detail.nextLowerOrEqualFactor v3uiMaxBlockKernelsExtent.y v3uiGridKernelsExtent.y
      let bz ← detail.nextLowerOrEqualFactor v3uiMaxBlockKernelsExtent.z v3uiGridKernelsExtent.z
      let v3uiBlockKernelsExtent : Vec3 := { x := bx, y := by_, z := bz }
      let gx ← divide v3uiGridKernelsExtent.x v3uiBlockKernelsExtent.x
      let gy ← divide v3uiGridKernelsExtent.y v3uiBlockKernelsExtent.y
      let gz ← divide v3uiGridKernelsExtent.z v3uiBlockKernelsExtent.z
      let v3uiGridBlocksExtent : Vec3 := { x := gx, y := gy, z := gz }
      pure { gridBlocksExtent := v3uiGridBlocksExtent
             blockKernelsExtent := v3uiBlockKernelsExtent }

/-- The divisors at which `detail::nextLowerOrEqualFactor` evaluates
`uiDividend % uiDivisor`, in the order of evaluation: the loop of
`nextLowerOrEqualFactor` with a ghost record of the value of `uiDivisor` at
every evaluation of the loop condition. -/
def divisorsEvaluated : (uiMaxDivisor : Nat) → (uiDividend : Nat) → List Nat
  | 0, _ => [0]
  | uiDivisor + 1, uiDividend =>
    (uiDivisor + 1) ::
      (if uiDividend % (uiDivisor + 1) ≠ 0 then divisorsEvaluated uiDivisor uiDividend else [])

/-- The halving of the specification in closed form: every component divided by
`2 ^ k`, rounded down, and not below one. -/
def closedFormHalving (k : Nat) (c : Vec3) : Vec3 :=
  { x := max 1 (c.x / 2 ^ k)
    y := max 1 (c.y / 2 ^ k)
    z := max 1 (c.z / 2 ^ k) }

/-! ## The CUDA work division -/

/-- Modelled from the spec: the CUDA built-in type `dim3` of the native
hardware coordinate source, three unsigned components. -/
structure dim3 where
  x : Nat
  y : Nat
  z : Nat
  deriving DecidableEq, Repr

/-- Modelled from the spec: the native hardware coordinate source read by the
CUDA work division, the built-in variables `gridDim` and `blockDim` of the
executing thread. -/
structure CudaBuiltins where
  gridDim : dim3
  blockDim : dim3
  deriving DecidableEq, Repr

namespace cuda
namespace detail

/-- The class `cuda::detail::WorkDivCuda`; it declares no data member. -/
structure WorkDivCuda where
  deriving DecidableEq, Repr

/-- The method `WorkDivCuda::getGridBlockExtents`. -/
def WorkDivCuda.getGridBlockExtents (hw : CudaBuiltins) (_self : WorkDivCuda) : Vec3 :=
  Vec3.mk hw.gridDim.x hw.gridDim.y hw.gridDim.z

/-- The method `WorkDivCuda::getBlockThreadExtents`. -/
def WorkDivCuda.getBlockThreadExtents (hw : CudaBuiltins) (_self : WorkDivCuda) : Vec3 :=
  Vec3.mk hw.blockDim.x hw.blockDim.y hw.blockDim.z

end detail
end cuda

namespace traits
namespace workdiv

/-- The specialization
`GetWorkDiv<cuda::detail::WorkDivCuda, origin::Block, unit::Threads, dim::Dim3>::getWorkDiv`. -/
def GetWorkDivBlockThreadsDim3.getWorkDiv (hw : CudaBuiltins)
    (workDiv : cuda.detail.WorkDivCuda) : Vec3 :=
  cuda.detail.WorkDivCuda.getBlockThreadExtents hw workDiv

/-- The specialization
`GetWorkDiv<cuda::detail::WorkDivCuda, origin::Grid, unit::Blocks, dim::Dim3>::getWorkDiv`. -/
def GetWorkDivGridBlocksDim3.getWorkDiv (hw : CudaBuiltins)
    (workDiv : cuda.detail.WorkDivCuda) : Vec3 :=
  cuda.detail.WorkDivCuda.getGridBlockExtents hw workDiv

end workdiv
end traits

/-! ## Predicates used in the statements -/

/-- The largest component of a vector. -/
def Vec3.maxComp (v : Vec3) : Nat := max v.x (max v.y v.z)

/-- Every component is strictly positive. -/
def Vec3.allPos (v : Vec3) : Prop := 0 < v.x ∧ 0 < v.y ∧ 0 < v.z

instance (v : Vec3) : Decidable v.allPos := by
  unfold Vec3.allPos; infer_instance

/-- Valid hardware limits: every component of the maximum block extent is at
least one and so is the maximum number of kernels per block. -/
def DeviceProperties.valid (p : DeviceProperties) : Prop :=
  p.m_v3uiBlockKernelsExtentMax.allPos ∧ 1 ≤ p.m_uiBlockKernelsCountMax

instance (p : DeviceProperties) : Decidable p.valid := by
  unfold DeviceProperties.valid; infer_instance

/-- The limits are values of `std::size_t`. -/
def DeviceProperties.representable (p : DeviceProperties) : Prop :=
  p.m_v3uiBlockKernelsExtentMax.x ≤ sizeMax ∧ p.m_v3uiBlockKernelsExtentMax.y ≤ sizeMax ∧
    p.m_v3uiBlockKernelsExtentMax.z ≤ sizeMax ∧ p.m_uiBlockKernelsCountMax ≤ sizeMax

instance (p : DeviceProperties) : Decidable p.representable := by
  unfold DeviceProperties.representable; infer_instance

/-- The product of the vector is computed without overflow: the arithmetic is
exact, or the exact product is below `2 ^ sizeBits`. -/
def SizeArith.noOverflow (A : SizeArith) (v : Vec3) : Prop :=
  A = SizeArith.exact ∨ v.prodExact < 2 ^ sizeBits

instance (A : SizeArith) (v : Vec3) : Decidable (A.noOverflow v) := by
  unfold SizeArith.noOverflow; infer_instance

/-! ## The divisor search -/

theorem nextLowerOrEqualFactor_spec (uiDividend : Nat) :
    ∀ uiMaxDivisor, 1 ≤ uiMaxDivisor →
      ∃ r, detail.nextLowerOrEqualFactor uiMaxDivisor uiDividend = Except.ok r ∧
        1 ≤ r ∧ r ≤ uiMaxDivisor ∧ uiDividend % r = 0 ∧
        ∀ k, r < k → k ≤ uiMaxDivisor → uiDividend % k ≠ 0 := by
  intro m
  induction m with
  | zero => intro h; omega
  | succ d ih =>
    intro _
    by_cases hdiv : uiDividend % (d + 1) = 0
    · refine ⟨d + 1, ?_, by omega, le_refl _, hdiv, ?_⟩
      · simp [detail.nextLowerOrEqualFactor, hdiv]
      · intro k h1 h2; omega
    · have hd : 1 ≤ d := by
        rcases Nat.eq_zero_or_pos d with h0 | h0
        · subst h0; simp [Nat.mod_one] at hdiv
        · exact h0
      obtain ⟨r, hr, h1, h2, h3, h4⟩ := ih hd
      refine ⟨r, ?_, h1, by omega, h3, ?_⟩
      · simp [detail.nextLowerOrEqualFactor, hdiv, hr]
      · intro k hk1 hk2
        rcases Nat.lt_or_ge d k with h | h
        · have : k = d + 1 := by omega
          subst this; exact hdiv
        · exact h4 k hk1 h

/-! ## The clipping loop -/

theorem wrap_one (A : SizeArith) : A.wrap 1 = 1 := by
  cases A <;> simp [SizeArith.wrap, sizeBits]

theorem wrap_le (A : SizeArith) (n : Nat) : A.wrap n ≤ n := by
  cases A
  · simp [SizeArith.wrap]
  · exact Nat.mod_le _ _

theorem halve_allPos (v : Vec3) : (halve v).allPos := by
  simp only [Vec3.allPos, halve]; omega

theorem halve_le (v : Vec3) (hv : v.allPos) :
    (halve v).x ≤ v.x ∧ (halve v).y ≤ v.y ∧ (halve v).z ≤ v.z := by
  simp only [Vec3.allPos, halve] at *; omega

theorem halve_iterate_allPos (v : Vec3) (hv : v.allPos) (k : Nat) : (halve^[k] v).allPos := by
  cases k with
  | zero => simpa using hv
  | succ k => rw [Function.iterate_succ_apply']; exact halve_allPos _

theorem halve_iterate_le (v : Vec3) (hv : v.allPos) (k : Nat) :
    (halve^[k] v).x ≤ v.x ∧ (halve^[k] v).y ≤ v.y ∧ (halve^[k] v).z ≤ v.z := by
  induction k with
  | zero => simp
  | succ k ih =>
    rw [Function.iterate_succ_apply']
    have h := halve_le _ (halve_iterate_allPos v hv k)
    omega

theorem prodExact_mono (u v : Vec3) (hx : u.x ≤ v.x) (hy : u.y ≤ v.y) (hz : u.z ≤ v.z) :
    u.prodExact ≤ v.prodExact := by
  unfold Vec3.prodExact
  exact Nat.mul_le_mul (Nat.mul_le_mul hx hy) hz

/-- Run of the clipping loop from a vector with positive components against a
positive count: with enough fuel the loop is left after `k` rounds, where
`2 ^ k` is at most the largest component, the loop condition held before each
round and fails at the end. -/
theorem halveWhile_spec (A : SizeArith) (uiMax : Nat) (hmax : 1 ≤ uiMax) :
    ∀ (fuel : Nat) (v : Vec3), v.allPos → v.maxComp < 2 ^ fuel →
      ∃ k, halveWhile A uiMax fuel v = Except.ok (halve^[k] v) ∧
        halveRounds A uiMax fuel v = Except.ok k ∧
        2 ^ k ≤ v.maxComp ∧
        (halve^[k] v).prod A ≤ uiMax ∧
        ∀ j, j < k → uiMax < (halve^[j] v).prod A := by
  intro fuel
  induction fuel with
  | zero =>
    intro v hv hf
    simp only [Vec3.allPos, Vec3.maxComp] at *; omega
  | succ fuel ih =>
    intro v hv hf
    by_cases hc : v.prod A > uiMax
    · have hM : 2 ≤ v.maxComp := by
        by_contra hlt
        have h1 : v = ⟨1, 1, 1⟩ := by
          cases v with
          | mk x y z =>
            simp only [Vec3.allPos, Vec3.maxComp] at *
            have hx : x = 1 := by omega
            have hy : y = 1 := by omega
            have hz : z = 1 := by omega
            subst hx hy hz; rfl
        subst h1
        simp [Vec3.prod, Vec3.prodExact, wrap_one] at hc
        omega
      have hf' : (halve v).maxComp < 2 ^ fuel := by
        have : 2 ^ (fuel + 1) = 2 * 2 ^ fuel := by ring
        simp only [Vec3.maxComp, halve] at *; omega
      obtain ⟨k, h1, h2, h3, h4, h5⟩ := ih (halve v) (halve_allPos v) hf'
      refine ⟨k + 1, ?_, ?_, ?_, ?_, ?_⟩
      · simp [halveWhile, hc, h1]
      · simp [halveRounds, hc, h2, Except.map]
      · have : 2 ^ (k + 1) = 2 * 2 ^ k := by ring
        simp only [Vec3.maxComp, halve] at *; omega
      · simpa using h4
      · intro j hj
        cases j with
        | zero => simpa using hc
        | succ j => simpa using h5 j (by omega)
    · refine ⟨0, ?_, ?_, ?_, ?_, ?_⟩
      · simp [halveWhile, hc]
      · simp [halveRounds, hc]
      · simp only [Vec3.allPos, Vec3.maxComp] at *; omega
      · simpa using hc
      · intro j hj; omega

theorem clipToGrid_allPos (lim g : Vec3) (hl : lim.allPos) (hg : g.allPos) :
    (clipToGrid lim g).allPos := by
  simp only [Vec3.allPos, clipToGrid] at *; omega

theorem clipToGrid_maxComp_le (lim g : Vec3) : (clipToGrid lim g).maxComp ≤ g.maxComp := by
  simp only [Vec3.maxComp, clipToGrid]; omega

/-- Result of the guarded clipping: with enough fuel it returns a vector with
positive components, component-wise at most the input, whose product as
computed is at most the count. -/
theorem clipToCount_spec (A : SizeArith) (uiMax : Nat) (hmax : 1 ≤ uiMax)
    (fuel : Nat) (c : Vec3) (hc : c.allPos) (hf : c.maxComp < 2 ^ fuel) :
    ∃ h, clipToCount A fuel uiMax c = Except.ok h ∧ h.allPos ∧
      h.x ≤ c.x ∧ h.y ≤ c.y ∧ h.z ≤ c.z ∧ h.prod A ≤ uiMax := by
  by_cases hgt : c.prod A > uiMax
  · obtain ⟨k, h1, _, _, h4, _⟩ := halveWhile_spec A uiMax hmax fuel c hc hf
    have hle := halve_iterate_le c hc k
    exact ⟨halve^[k] c, by simp [clipToCount, hgt, h1], halve_iterate_allPos c hc k,
      hle.1, hle.2.1, hle.2.2, h4⟩
  · exact ⟨c, by simp [clipToCount, hgt], hc, le_refl _, le_refl _, le_refl _, by omega⟩

theorem divide_ok (a b : Nat) (hb : 1 ≤ b) : divide a b = Except.ok (a / b) := by
  have : b ≠ 0 := by omega
  simp [divide, this]

/-- Run of `getValidWorkExtent` on a positive grid extent against valid limits:
with enough fuel it returns, the block extent is the result of the divisor
search on the clipped maximum block extent `h`, the grid blocks extent is the
quotient. -/
theorem getValidWorkExtent_run (NDEBUG : Bool) (A : SizeArith) (fuel : Nat) (TAcc : DeviceProperties)
    (accs : List DeviceProperties) (g : Vec3) (adaptive : Bool)
    (hg : g.allPos) (hl : (maxBlockLimits TAcc accs adaptive).valid)
    (hf : g.maxComp < 2 ^ fuel) :
    ∃ h bx by_ bz,
      clipToCount A fuel (maxBlockLimits TAcc accs adaptive).m_uiBlockKernelsCountMax
        (clipToGrid (maxBlockLimits TAcc accs adaptive).m_v3uiBlockKernelsExtentMax g)
        = Except.ok h ∧
      h.allPos ∧
      detail.nextLowerOrEqualFactor h.x g.x = Except.ok bx ∧
      detail.nextLowerOrEqualFactor h.y g.y = Except.ok by_ ∧
      detail.nextLowerOrEqualFactor h.z g.z = Except.ok bz ∧
      getValidWorkExtent NDEBUG A fuel TAcc accs g adaptive
        = Except.ok { gridBlocksExtent := { x := g.x / bx, y := g.y / by_, z := g.z / bz }
                      blockKernelsExtent := { x := bx, y := by_, z := bz } } := by
  have hc := clipToGrid_allPos _ g hl.1 hg
  have hf' := lt_of_le_of_lt
    (clipToGrid_maxComp_le (maxBlockLimits TAcc accs adaptive).m_v3uiBlockKernelsExtentMax g) hf
  obtain ⟨h, hh, hpos, -, -, -, -⟩ := clipToCount_spec A _ hl.2 fuel _ hc hf'
  obtain ⟨bx, hbx, hx1, -⟩ := nextLowerOrEqualFactor_spec g.x h.x hpos.1
  obtain ⟨by_, hby, hy1, -⟩ := nextLowerOrEqualFactor_spec g.y h.y hpos.2.1
  obtain ⟨bz, hbz, hz1, -⟩ := nextLowerOrEqualFactor_spec g.z h.z hpos.2.2
  refine ⟨h, bx, by_, bz, hh, hpos, hbx, hby, hbz, ?_⟩
  have hgx : g.x > 0 := hg.1
  have hgy : g.y > 0 := hg.2.1
  have hgz : g.z > 0 := hg.2.2
  simp only [getValidWorkExtent, hgx, hgy, hgz, not_true_eq_false, and_false, if_false, hh,
    hbx, hby, hbz,
    divide_ok _ _ hx1, divide_ok _ _ hy1, divide_ok _ _ hz1, bind, Except.bind, pure, Except.pure]

/-! ## The aggregation of the limits -/

theorem foldl_min_le_init {α : Type} (f : α → Nat) (l : List α) :
    ∀ a : Nat, l.foldl (fun acc b => min acc (f b)) a ≤ a := by
  induction l with
  | nil => intro a; simp
  | cons b l ih =>
    intro a
    simp only [List.foldl_cons]
    exact le_trans (ih _) (Nat.min_le_left _ _)

theorem foldl_min_le_mem {α : Type} (f : α → Nat) (l : List α) :
    ∀ a : Nat, ∀ b ∈ l, l.foldl (fun acc b => min acc (f b)) a ≤ f b := by
  induction l with
  | nil => intro a b hb; simp at hb
  | cons c l ih =>
    intro a b hb
    simp only [List.foldl_cons]
    rcases List.mem_cons.mp hb with h | h
    · subst h
      exact le_trans (foldl_min_le_init f l _) (Nat.min_le_right _ _)
    · exact ih _ b h

theorem foldl_min_attained {α : Type} (f : α → Nat) (l : List α) :
    ∀ a : Nat, l.foldl (fun acc b => min acc (f b)) a = a ∨
      ∃ b ∈ l, l.foldl (fun acc b => min acc (f b)) a = f b := by
  induction l with
  | nil => intro a; simp
  | cons c l ih =>
    intro a
    simp only [List.foldl_cons]
    rcases ih (min a (f c)) with h | ⟨b, hb, h⟩
    · rcases Nat.le_total a (f c) with hle | hle
      · left; rw [h]; exact Nat.min_eq_left hle
      · right; exact ⟨c, List.mem_cons_self _ _, by rw [h]; exact Nat.min_eq_right hle⟩
    · right; exact ⟨b, List.mem_cons_of_mem _ hb, h⟩

theorem foldl_min_pos {α : Type} (f : α → Nat) (l : List α) :
    ∀ a : Nat, 1 ≤ a → (∀ b ∈ l, 1 ≤ f b) →
      1 ≤ l.foldl (fun acc b => min acc (f b)) a := by
  intro a ha hl
  rcases foldl_min_attained f l a with h | ⟨b, hb, h⟩
  · omega
  · have := hl b hb; omega

theorem extent_foldl_x (l : List DeviceProperties) : ∀ a : Vec3,
    (l.foldl detail.CorrectMaxBlockKernelExtent a).x
      = l.foldl (fun acc b => min acc b.m_v3uiBlockKernelsExtentMax.x) a.x := by
  induction l with
  | nil => intro a; rfl
  | cons b l ih => intro a; simp only [List.foldl_cons]; rw [ih]; rfl

theorem extent_foldl_y (l : List DeviceProperties) : ∀ a : Vec3,
    (l.foldl detail.CorrectMaxBlockKernelExtent a).y
      = l.foldl (fun acc b => min acc b.m_v3uiBlockKernelsExtentMax.y) a.y := by
  induction l with
  | nil => intro a; rfl
  | cons b l ih => intro a; simp only [List.foldl_cons]; rw [ih]; rfl

theorem extent_foldl_z (l : List DeviceProperties) : ∀ a : Vec3,
    (l.foldl detail.CorrectMaxBlockKernelExtent a).z
      = l.foldl (fun acc b => min acc b.m_v3uiBlockKernelsExtentMax.z) a.z := by
  induction l with
  | nil => intro a; rfl
  | cons b l ih => intro a; simp only [List.foldl_cons]; rw [ih]; rfl

theorem count_foldl (l : List DeviceProperties) : ∀ a : Nat,
    l.foldl detail.CorrectMaxBlockKernelCount a
      = l.foldl (fun acc b => min acc b.m_uiBlockKernelsCountMax) a := by
  intro a; rfl

theorem sizeMax_pos : 1 ≤ sizeMax := by decide

theorem prod_eq_prodExact_of_le (A : SizeArith) (c h : Vec3) (hno : A.noOverflow c)
    (hle : h.prodExact ≤ c.prodExact) : h.prod A = h.prodExact := by
  rcases hno with hA | hlt
  · subst hA; rfl
  · cases A
    · rfl
    · exact Nat.mod_eq_of_lt (lt_of_le_of_lt hle hlt)

/-- Everything the later statements need about a run of `getValidWorkExtent` on
a positive grid extent against valid limits `L`: it returns a work extent `w`
whose block extent is positive, bounded by the clipped extent `h`, divides the
grid extent, and whose grid blocks extent is the quotient. -/
theorem getValidWorkExtent_props (NDEBUG : Bool) (A : SizeArith) (fuel : Nat) (TAcc : DeviceProperties)
    (accs : List DeviceProperties) (g : Vec3) (adaptive : Bool)
    (hg : g.allPos) (hl : (maxBlockLimits TAcc accs adaptive).valid)
    (hf : g.maxComp < 2 ^ fuel) :
    ∃ (h : Vec3) (w : WorkExtent),
      getValidWorkExtent NDEBUG A fuel TAcc accs g adaptive = Except.ok w ∧
      h.allPos ∧
      h.x ≤ (clipToGrid (maxBlockLimits TAcc accs adaptive).m_v3uiBlockKernelsExtentMax g).x ∧
      h.y ≤ (clipToGrid (maxBlockLimits TAcc accs adaptive).m_v3uiBlockKernelsExtentMax g).y ∧
      h.z ≤ (clipToGrid (maxBlockLimits TAcc accs adaptive).m_v3uiBlockKernelsExtentMax g).z ∧
      h.prod A ≤ (maxBlockLimits TAcc accs adaptive).m_uiBlockKernelsCountMax ∧
      w.blockKernelsExtent.allPos ∧
      w.blockKernelsExtent.x ≤ h.x ∧ w.blockKernelsExtent.y ≤ h.y ∧
      w.blockKernelsExtent.z ≤ h.z ∧
      g.x % w.blockKernelsExtent.x = 0 ∧ g.y % w.blockKernelsExtent.y = 0 ∧
      g.z % w.blockKernelsExtent.z = 0 ∧
      w.gridBlocksExtent.x = g.x / w.blockKernelsExtent.x ∧
      w.gridBlocksExtent.y = g.y / w.blockKernelsExtent.y ∧
      w.gridBlocksExtent.z = g.z / w.blockKernelsExtent.z := by
  obtain ⟨h, bx, by_, bz, hh, hpos, hbx, hby, hbz, hrun⟩ :=
    getValidWorkExtent_run NDEBUG A fuel TAcc accs g adaptive hg hl hf
  have hc := clipToGrid_allPos _ g hl.1 hg
  have hf' := lt_of_le_of_lt
    (clipToGrid_maxComp_le (maxBlockLimits TAcc accs adaptive).m_v3uiBlockKernelsExtentMax g) hf
  obtain ⟨h', hh', -, hx, hy, hz, hp⟩ := clipToCount_spec A _ hl.2 fuel _ hc hf'
  have heq : h' = h := by
    rw [hh'] at hh; exact Except.ok.inj hh
  subst heq
  obtain ⟨bx', hbx', hx1, hx2, hx3, -⟩ := nextLowerOrEqualFactor_spec g.x h'.x hpos.1
  obtain ⟨by', hby', hy1, hy2, hy3, -⟩ := nextLowerOrEqualFactor_spec g.y h'.y hpos.2.1
  obtain ⟨bz', hbz', hz1, hz2, hz3, -⟩ := nextLowerOrEqualFactor_spec g.z h'.z hpos.2.2
  have ex : bx' = bx := by rw [hbx'] at hbx; exact Except.ok.inj hbx
  have ey : by' = by_ := by rw [hby'] at hby; exact Except.ok.inj hby
  have ez : bz' = bz := by rw [hbz'] at hbz; exact Except.ok.inj hbz
  subst ex ey ez
  exact ⟨h', _, hrun, hpos, hx, hy, hz, hp, ⟨hx1, hy1, hz1⟩, hx2, hy2, hz2, hx3, hy3, hz3,
    rfl, rfl, rfl⟩

theorem halveWhile_ne_assertion (A : SizeArith) (uiMax : Nat) :
    ∀ (fuel : Nat) (v : Vec3), halveWhile A uiMax fuel v ≠ Except.error Fault.assertion := by
  intro fuel
  induction fuel with
  | zero => intro v; simp [halveWhile]
  | succ fuel ih =>
    intro v
    by_cases hc : v.prod A > uiMax
    · simpa [halveWhile, hc] using ih (halve v)
    · simp [halveWhile, hc]

theorem clipToCount_ne_assertion (A : SizeArith) (fuel uiMax : Nat) (c : Vec3) :
    clipToCount A fuel uiMax c ≠ Except.error Fault.assertion := by
  by_cases hc : c.prod A > uiMax
  · simpa [clipToCount, hc] using halveWhile_ne_assertion A uiMax fuel c
  · simp [clipToCount, hc]

theorem nextLowerOrEqualFactor_ne_assertion (n : Nat) :
    ∀ m, detail.nextLowerOrEqualFactor m n ≠ Except.error Fault.assertion := by
  intro m
  induction m with
  | zero => simp [detail.nextLowerOrEqualFactor]
  | succ d ih =>
    by_cases hdiv : n % (d + 1) = 0
    · simp [detail.nextLowerOrEqualFactor, hdiv]
    · simpa [detail.nextLowerOrEqualFactor, hdiv] using ih

theorem divide_ne_assertion (a b : Nat) : divide a b ≠ Except.error Fault.assertion := by
  by_cases hb : b = 0 <;> simp [divide, hb]

/-- When the leading assertions of `getValidWorkExtent` are compiled out or
hold, the run does not end in an assertion failure: no later statement
produces one. -/
theorem getValidWorkExtent_no_assertion_of_pos (NDEBUG : Bool) (A : SizeArith) (fuel : Nat)
    (TAcc : DeviceProperties) (accs : List DeviceProperties) (g : Vec3) (adaptive : Bool)
    (hpass : NDEBUG = true ∨ g.allPos) :
    getValidWorkExtent NDEBUG A fuel TAcc accs g adaptive ≠ Except.error Fault.assertion := by
  have c1 : ¬ (NDEBUG = false ∧ ¬ (g.x > 0)) := by
    rcases hpass with h | h
    · simp [h]
    · simp [h.1]
  have c2 : ¬ (NDEBUG = false ∧ ¬ (g.y > 0)) := by
    rcases hpass with h | h
    · simp [h]
    · simp [h.2.1]
  have c3 : ¬ (NDEBUG = false ∧ ¬ (g.z > 0)) := by
    rcases hpass with h | h
    · simp [h]
    · simp [h.2.2]
  simp only [getValidWorkExtent, c1, c2, c3, if_false, bind, Except.bind,
    pure, Except.pure]
  cases h0 : clipToCount A fuel (maxBlockLimits TAcc accs adaptive).m_uiBlockKernelsCountMax
      (clipToGrid (maxBlockLimits TAcc accs adaptive).m_v3uiBlockKernelsExtentMax g) with
  | error e =>
    intro hcontra
    exact clipToCount_ne_assertion A fuel _ _ (h0.trans (by simpa using hcontra))
  | ok h =>
    simp only
    cases h1 : detail.nextLowerOrEqualFactor h.x g.x with
    | error e =>
      intro hcontra
      exact nextLowerOrEqualFactor_ne_assertion _ _ (h1.trans (by simpa using hcontra))
    | ok bx =>
      simp only
      cases h2 : detail.nextLowerOrEqualFactor h.y g.y with
      | error e =>
        intro hcontra
        exact nextLowerOrEqualFactor_ne_assertion _ _ (h2.trans (by simpa using hcontra))
      | ok by_ =>
        simp only
        cases h3 : detail.nextLowerOrEqualFactor h.z g.z with
        | error e =>
          intro hcontra
          exact nextLowerOrEqualFactor_ne_assertion _ _ (h3.trans (by simpa using hcontra))
        | ok bz =>
          simp only
          cases h4 : divide g.x bx with
          | error e =>
            intro hcontra
            exact divide_ne_assertion _ _ (h4.trans (by simpa using hcontra))
          | ok qx =>
            simp only
            cases h5 : divide g.y by_ with
            | error e =>
              intro hcontra
              exact divide_ne_assertion _ _ (h5.trans (by simpa using hcontra))
            | ok qy =>
              simp only
              cases h6 : divide g.z bz with
              | error e =>
                intro hcontra
                exact divide_ne_assertion _ _ (h6.trans (by simpa using hcontra))
              | ok qz => simp

/-! ## The contract of the partitioning -/

/-- C1 (exact tiling): for every grid extent with positive components and all
limits with positive components and a positive count, `getValidWorkExtent`
returns (given enough fuel for the clipping loop) a work extent whose grid
blocks extent times block kernels extent is the grid extent in each dimension. -/
theorem getValidWorkExtent_exact_tiling (NDEBUG : Bool) (A : SizeArith) (fuel : Nat) (TAcc : DeviceProperties)
    (accs : List DeviceProperties) (g : Vec3) (adaptive : Bool)
    (hg : g.allPos) (hl : (maxBlockLimits TAcc accs adaptive).valid)
    (hf : g.maxComp < 2 ^ fuel) :
    ∃ w, getValidWorkExtent NDEBUG A fuel TAcc accs g adaptive = Except.ok w ∧
      w.gridBlocksExtent.x * w.blockKernelsExtent.x = g.x ∧
      w.gridBlocksExtent.y * w.blockKernelsExtent.y = g.y ∧
      w.gridBlocksExtent.z * w.blockKernelsExtent.z = g.z := by
  obtain ⟨h, w, hw, -, -, -, -, -, -, -, -, -, dx, dy, dz, qx, qy, qz⟩ :=
    getValidWorkExtent_props NDEBUG A fuel TAcc accs g adaptive hg hl hf
  refine ⟨w, hw, ?_, ?_, ?_⟩
  · rw [qx]; exact Nat.div_mul_cancel (Nat.dvd_of_mod_eq_zero dx)
  · rw [qy]; exact Nat.div_mul_cancel (Nat.dvd_of_mod_eq_zero dy)
  · rw [qz]; exact Nat.div_mul_cancel (Nat.dvd_of_mod_eq_zero dz)

/-- Instance of C1 at the grid extent (100, 64, 1) on a device with limits
((32, 32, 32), 1024), machine arithmetic. -/
theorem getValidWorkExtent_exact_tiling_witness :
    (Vec3.mk 100 64 1).allPos ∧
    (maxBlockLimits ⟨⟨32, 32, 32⟩, 1024⟩ [] true).valid ∧
    (Vec3.mk 100 64 1).maxComp < 2 ^ 7 ∧
    ∃ w, getValidWorkExtent true SizeArith.wrapping 7 ⟨⟨32, 32, 32⟩, 1024⟩ [] ⟨100, 64, 1⟩ true
        = Except.ok w ∧
      w.gridBlocksExtent.x * w.blockKernelsExtent.x = 100 ∧
      w.gridBlocksExtent.y * w.blockKernelsExtent.y = 64 ∧
      w.gridBlocksExtent.z * w.blockKernelsExtent.z = 1 :=
  ⟨by decide, by decide, by decide,
    getValidWorkExtent_exact_tiling true SizeArith.wrapping 7 ⟨⟨32, 32, 32⟩, 1024⟩ [] ⟨100, 64, 1⟩ true
      (by decide) (by decide) (by decide)⟩

/-- C2 (per-dimension bound): under the same preconditions the returned block
extent is in every dimension at most the minimum of the limit and of the grid
extent, whether or not the clipping loop has run. -/
theorem getValidWorkExtent_block_le_min (NDEBUG : Bool) (A : SizeArith) (fuel : Nat) (TAcc : DeviceProperties)
    (accs : List DeviceProperties) (g : Vec3) (adaptive : Bool)
    (hg : g.allPos) (hl : (maxBlockLimits TAcc accs adaptive).valid)
    (hf : g.maxComp < 2 ^ fuel) :
    ∃ w, getValidWorkExtent NDEBUG A fuel TAcc accs g adaptive = Except.ok w ∧
      w.blockKernelsExtent.x
        ≤ min (maxBlockLimits TAcc accs adaptive).m_v3uiBlockKernelsExtentMax.x g.x ∧
      w.blockKernelsExtent.y
        ≤ min (maxBlockLimits TAcc accs adaptive).m_v3uiBlockKernelsExtentMax.y g.y ∧
      w.blockKernelsExtent.z
        ≤ min (maxBlockLimits TAcc accs adaptive).m_v3uiBlockKernelsExtentMax.z g.z := by
  obtain ⟨h, w, hw, -, cx, cy, cz, -, -, bx, by_, bz, -⟩ :=
    getValidWorkExtent_props NDEBUG A fuel TAcc accs g adaptive hg hl hf
  simp only [clipToGrid] at cx cy cz
  exact ⟨w, hw, le_trans bx cx, le_trans by_ cy, le_trans bz cz⟩

/-- Instance of C2 where the clipping loop runs: grid extent (100, 64, 3) on a
device with limits ((32, 32, 32), 100). -/
theorem getValidWorkExtent_block_le_min_witness :
    (Vec3.mk 100 64 3).allPos ∧
    (maxBlockLimits ⟨⟨32, 32, 32⟩, 100⟩ [] true).valid ∧
    (Vec3.mk 100 64 3).maxComp < 2 ^ 7 ∧
    ∃ w, getValidWorkExtent false SizeArith.exact 7 ⟨⟨32, 32, 32⟩, 100⟩ [] ⟨100, 64, 3⟩ true
        = Except.ok w ∧
      w.blockKernelsExtent.x
        ≤ min (maxBlockLimits ⟨⟨32, 32, 32⟩, 100⟩ [] true).m_v3uiBlockKernelsExtentMax.x 100 ∧
      w.blockKernelsExtent.y
        ≤ min (maxBlockLimits ⟨⟨32, 32, 32⟩, 100⟩ [] true).m_v3uiBlockKernelsExtentMax.y 64 ∧
      w.blockKernelsExtent.z
        ≤ min (maxBlockLimits ⟨⟨32, 32, 32⟩, 100⟩ [] true).m_v3uiBlockKernelsExtentMax.z 3 :=
  ⟨by decide, by decide, by decide,
    getValidWorkExtent_block_le_min false SizeArith.exact 7 ⟨⟨32, 32, 32⟩, 100⟩ [] ⟨100, 64, 3⟩ true
      (by decide) (by decide) (by decide)⟩

/-- C3 (thread-count bound): under the same preconditions, when the product is
computed over the unbounded naturals (or the product of the clipped extent does
not overflow), the exact product of the three components of the returned block
extent is at most the maximum number of kernels per block. -/
theorem getValidWorkExtent_block_prod_le (NDEBUG : Bool) (A : SizeArith) (fuel : Nat) (TAcc : DeviceProperties)
    (accs : List DeviceProperties) (g : Vec3) (adaptive : Bool)
    (hg : g.allPos) (hl : (maxBlockLimits TAcc accs adaptive).valid)
    (hno : A.noOverflow
      (clipToGrid (maxBlockLimits TAcc accs adaptive).m_v3uiBlockKernelsExtentMax g))
    (hf : g.maxComp < 2 ^ fuel) :
    ∃ w, getValidWorkExtent NDEBUG A fuel TAcc accs g adaptive = Except.ok w ∧
      w.blockKernelsExtent.x * w.blockKernelsExtent.y * w.blockKernelsExtent.z
        ≤ (maxBlockLimits TAcc accs adaptive).m_uiBlockKernelsCountMax := by
  obtain ⟨h, w, hw, -, cx, cy, cz, hp, -, bx, by_, bz, -⟩ :=
    getValidWorkExtent_props NDEBUG A fuel TAcc accs g adaptive hg hl hf
  refine ⟨w, hw, ?_⟩
  have h1 : w.blockKernelsExtent.prodExact ≤ h.prodExact := prodExact_mono _ _ bx by_ bz
  have h2 : h.prodExact ≤ _ := prodExact_mono _ _ cx cy cz
  rw [prod_eq_prodExact_of_le A _ h hno h2] at hp
  exact le_trans h1 hp

/-- Instance of C3 over the unbounded naturals: grid extent (100, 64, 3) on a
device with limits ((32, 32, 32), 100). -/
theorem getValidWorkExtent_block_prod_le_witness :
    (Vec3.mk 100 64 3).allPos ∧
    (maxBlockLimits ⟨⟨32, 32, 32⟩, 100⟩ [] true).valid ∧
    SizeArith.exact.noOverflow
      (clipToGrid (maxBlockLimits ⟨⟨32, 32, 32⟩, 100⟩ [] true).m_v3uiBlockKernelsExtentMax
        ⟨100, 64, 3⟩) ∧
    (Vec3.mk 100 64 3).maxComp < 2 ^ 7 ∧
    ∃ w, getValidWorkExtent false SizeArith.exact 7 ⟨⟨32, 32, 32⟩, 100⟩ [] ⟨100, 64, 3⟩ true
        = Except.ok w ∧
      w.blockKernelsExtent.x * w.blockKernelsExtent.y * w.blockKernelsExtent.z
        ≤ (maxBlockLimits ⟨⟨32, 32, 32⟩, 100⟩ [] true).m_uiBlockKernelsCountMax :=
  ⟨by decide, by decide, by decide, by decide,
    getValidWorkExtent_block_prod_le false SizeArith.exact 7 ⟨⟨32, 32, 32⟩, 100⟩ [] ⟨100, 64, 3⟩ true
      (by decide) (by decide) (by decide) (by decide)⟩

/-- C4 (invalid extent is rejected, in a build with assertions): when `NDEBUG`
is not defined, whatever the arithmetic, the fuel, the limits and the mode,
`getValidWorkExtent` ends in the assertion failure exactly when some component
of the grid extent is zero, and it does so for the grid extent (0, 5, 5); the
outcome does not depend on the limits and a failed run carries no work extent.
When `NDEBUG` is defined the assertions are compiled out and no run ends in the
assertion failure. -/
theorem getValidWorkExtent_invalid_extent (A : SizeArith) (fuel : Nat) (TAcc : DeviceProperties)
    (accs : List DeviceProperties) (g : Vec3) (adaptive : Bool) :
    (getValidWorkExtent false A fuel TAcc accs g adaptive = Except.error Fault.assertion
      ↔ (g.x = 0 ∨ g.y = 0 ∨ g.z = 0)) ∧
    getValidWorkExtent false A fuel TAcc accs ⟨0, 5, 5⟩ adaptive
      = Except.error Fault.assertion ∧
    getValidWorkExtent true A fuel TAcc accs g adaptive ≠ Except.error Fault.assertion := by
  refine ⟨⟨?_, ?_⟩, ?_, ?_⟩
  · intro hfail
    by_contra hne
    have hpos : g.allPos := by
      simp only [Vec3.allPos]; omega
    exact getValidWorkExtent_no_assertion_of_pos false A fuel TAcc accs g adaptive
      (Or.inr hpos) hfail
  · intro hz
    unfold getValidWorkExtent
    rcases hz with h | h | h
    · simp [h]
    · by_cases hx : g.x > 0 <;> simp [h, hx]
    · by_cases hx : g.x > 0 <;> by_cases hy : g.y > 0 <;> simp [h, hx, hy]
  · simp [getValidWorkExtent]
  · exact getValidWorkExtent_no_assertion_of_pos true A fuel TAcc accs g adaptive (Or.inl rfl)

/-- C4 as stated fails in a build with `NDEBUG` defined: for the grid extent
(0, 5, 5) on a device with limits ((32, 32, 32), 1024) the assertions are
compiled out, the limits are read and clipped to (0, 5, 5), and the run ends
in the divisor search at `0 % 0`, not in the assertion failure. -/
theorem getValidWorkExtent_invalid_extent_ndebug :
    getValidWorkExtent true SizeArith.wrapping 7 ⟨⟨32, 32, 32⟩, 1024⟩ [] ⟨0, 5, 5⟩ true
      = Except.error Fault.divisionByZero ∧
    getValidWorkExtent true SizeArith.wrapping 7 ⟨⟨32, 32, 32⟩, 1024⟩ [] ⟨0, 5, 5⟩ true
      ≠ Except.error Fault.assertion ∧
    clipToGrid ⟨32, 32, 32⟩ ⟨0, 5, 5⟩ = ⟨0, 5, 5⟩ ∧
    clipToCount SizeArith.wrapping 7 1024 ⟨0, 5, 5⟩ = Except.ok ⟨0, 5, 5⟩ ∧
    detail.nextLowerOrEqualFactor 0 0 = Except.error Fault.divisionByZero := by
  decide

/-- C5 (largest divisor): for a maximum divisor and a dividend that are at least
one, `detail::nextLowerOrEqualFactor` returns a value `r` with
`1 ≤ r ≤ uiMaxDivisor` that divides the dividend, no integer above `r` up to and
including `uiMaxDivisor` divides the dividend, and so `r` is the largest divisor
of the dividend that is at most `uiMaxDivisor`. -/
theorem nextLowerOrEqualFactor_largest_divisor (uiMaxDivisor uiDividend : Nat)
    (hm : 1 ≤ uiMaxDivisor) (hn : 1 ≤ uiDividend) :
    ∃ r, detail.nextLowerOrEqualFactor uiMaxDivisor uiDividend = Except.ok r ∧
      1 ≤ r ∧ r ≤ uiMaxDivisor ∧ uiDividend % r = 0 ∧
      (∀ k, r < k → k ≤ uiMaxDivisor → uiDividend % k ≠ 0) ∧
      (∀ k, 1 ≤ k → k ≤ uiMaxDivisor → uiDividend % k = 0 → k ≤ r) := by
  have _ := hn
  obtain ⟨r, hr, h1, h2, h3, h4⟩ := nextLowerOrEqualFactor_spec uiDividend uiMaxDivisor hm
  refine ⟨r, hr, h1, h2, h3, h4, ?_⟩
  intro k _ hk2 hk3
  by_contra hlt
  exact h4 k (by omega) hk2 hk3

/-- Instance of C5: the largest divisor of 100 that is at most 32. -/
theorem nextLowerOrEqualFactor_largest_divisor_witness :
    1 ≤ 32 ∧ 1 ≤ 100 ∧
    ∃ r, detail.nextLowerOrEqualFactor 32 100 = Except.ok r ∧
      1 ≤ r ∧ r ≤ 32 ∧ 100 % r = 0 ∧
      (∀ k, r < k → k ≤ 32 → 100 % k ≠ 0) ∧
      (∀ k, 1 ≤ k → k ≤ 32 → 100 % k = 0 → k ≤ r) :=
  ⟨by decide, by decide, nextLowerOrEqualFactor_largest_divisor 32 100 (by decide) (by decide)⟩

set_option maxRecDepth 8000 in
/-- C6 (worked example): with grid extent (100, 64, 1) and limits
((32, 32, 32), 1024) the block extent is clipped to (32, 32, 1) with product
1024, the clipping to the count changes nothing and its loop runs no round, and
`getValidWorkExtent` returns block extent (25, 32, 1) and grid blocks extent
(4, 2, 1), both for the adaptive selection on that device and for the
aggregation over that device alone. -/
theorem getValidWorkExtent_worked_example (NDEBUG : Bool) (A : SizeArith) (fuel : Nat)
    (TAcc : DeviceProperties) (accs : List DeviceProperties) :
    clipToGrid ⟨32, 32, 32⟩ ⟨100, 64, 1⟩ = ⟨32, 32, 1⟩ ∧
    (Vec3.mk 32 32 1).prod A = 1024 ∧
    clipToCount A fuel 1024 ⟨32, 32, 1⟩ = Except.ok ⟨32, 32, 1⟩ ∧
    halveRounds A 1024 (fuel + 1) ⟨32, 32, 1⟩ = Except.ok 0 ∧
    getValidWorkExtent NDEBUG A fuel ⟨⟨32, 32, 32⟩, 1024⟩ accs ⟨100, 64, 1⟩ true
      = Except.ok ⟨⟨4, 2, 1⟩, ⟨25, 32, 1⟩⟩ ∧
    getValidWorkExtent NDEBUG A fuel TAcc [⟨⟨32, 32, 32⟩, 1024⟩] ⟨100, 64, 1⟩ false
      = Except.ok ⟨⟨4, 2, 1⟩, ⟨25, 32, 1⟩⟩ := by
  cases NDEBUG <;> cases A <;> exact ⟨rfl, rfl, rfl, rfl, rfl, rfl⟩

theorem enabledAccelerators_le_mem (accs : List DeviceProperties) (b : DeviceProperties)
    (hb : b ∈ accs) :
    (getMaxBlockKernelExtentEnabledAccelerators accs).x ≤ b.m_v3uiBlockKernelsExtentMax.x ∧
    (getMaxBlockKernelExtentEnabledAccelerators accs).y ≤ b.m_v3uiBlockKernelsExtentMax.y ∧
    (getMaxBlockKernelExtentEnabledAccelerators accs).z ≤ b.m_v3uiBlockKernelsExtentMax.z ∧
    getMaxBlockKernelCountEnabledAccelerators accs ≤ b.m_uiBlockKernelsCountMax := by
  refine ⟨?_, ?_, ?_, ?_⟩
  · simp only [getMaxBlockKernelExtentEnabledAccelerators, extent_foldl_x]
    exact foldl_min_le_mem (fun b => b.m_v3uiBlockKernelsExtentMax.x) accs _ b hb
  · simp only [getMaxBlockKernelExtentEnabledAccelerators, extent_foldl_y]
    exact foldl_min_le_mem (fun b => b.m_v3uiBlockKernelsExtentMax.y) accs _ b hb
  · simp only [getMaxBlockKernelExtentEnabledAccelerators, extent_foldl_z]
    exact foldl_min_le_mem (fun b => b.m_v3uiBlockKernelsExtentMax.z) accs _ b hb
  · simp only [getMaxBlockKernelCountEnabledAccelerators, count_foldl]
    exact foldl_min_le_mem (fun b => b.m_uiBlockKernelsCountMax) accs _ b hb

/-- C7 (aggregated limits are the tightest bound): for every list of enabled
back-ends whose limits are `std::size_t` values, each component of
`getMaxBlockKernelExtentEnabledAccelerators` and the value of
`getMaxBlockKernelCountEnabledAccelerators` is at most the corresponding limit
of every back-end and, for a non-empty list, is the limit of one of them, so it
is the minimum over the back-ends; for the empty list both are the largest
`std::size_t`; and the result is the same for every reordering of the list. -/
theorem enabledAccelerators_limits_are_minimum (accs : List DeviceProperties)
    (hrep : ∀ b ∈ accs, b.representable) :
    (∀ b ∈ accs,
      (getMaxBlockKernelExtentEnabledAccelerators accs).x ≤ b.m_v3uiBlockKernelsExtentMax.x ∧
      (getMaxBlockKernelExtentEnabledAccelerators accs).y ≤ b.m_v3uiBlockKernelsExtentMax.y ∧
      (getMaxBlockKernelExtentEnabledAccelerators accs).z ≤ b.m_v3uiBlockKernelsExtentMax.z ∧
      getMaxBlockKernelCountEnabledAccelerators accs ≤ b.m_uiBlockKernelsCountMax) ∧
    (accs ≠ [] →
      (∃ b ∈ accs,
        (getMaxBlockKernelExtentEnabledAccelerators accs).x = b.m_v3uiBlockKernelsExtentMax.x) ∧
      (∃ b ∈ accs,
        (getMaxBlockKernelExtentEnabledAccelerators accs).y = b.m_v3uiBlockKernelsExtentMax.y) ∧
      (∃ b ∈ accs,
        (getMaxBlockKernelExtentEnabledAccelerators accs).z = b.m_v3uiBlockKernelsExtentMax.z) ∧
      (∃ b ∈ accs,
        getMaxBlockKernelCountEnabledAccelerators accs = b.m_uiBlockKernelsCountMax)) ∧
    (getMaxBlockKernelExtentEnabledAccelerators [] = ⟨sizeMax, sizeMax, sizeMax⟩ ∧
      getMaxBlockKernelCountEnabledAccelerators [] = sizeMax) ∧
    (∀ accs2 : List DeviceProperties, accs.Perm accs2 →
      getMaxBlockKernelExtentEnabledAccelerators accs2
        = getMaxBlockKernelExtentEnabledAccelerators accs ∧
      getMaxBlockKernelCountEnabledAccelerators accs2
        = getMaxBlockKernelCountEnabledAccelerators accs) := by
  have attained : ∀ f : DeviceProperties → Nat, (∀ b ∈ accs, f b ≤ sizeMax) → accs ≠ [] →
      ∃ b ∈ accs, accs.foldl (fun acc b => min acc (f b)) sizeMax = f b := by
    intro f hf hne
    rcases foldl_min_attained f accs sizeMax with h | h
    · obtain ⟨b, hb⟩ := List.exists_mem_of_ne_nil accs hne
      exact ⟨b, hb, le_antisymm (foldl_min_le_mem f accs sizeMax b hb) (by rw [h]; exact hf b hb)⟩
    · exact h
  refine ⟨?_, ?_, ⟨rfl, rfl⟩, ?_⟩
  · intro b hb
    exact enabledAccelerators_le_mem accs b hb
  · intro hne
    refine ⟨?_, ?_, ?_, ?_⟩
    · simp only [getMaxBlockKernelExtentEnabledAccelerators, extent_foldl_x]
      exact attained (fun b => b.m_v3uiBlockKernelsExtentMax.x) (fun b hb => (hrep b hb).1) hne
    · simp only [getMaxBlockKernelExtentEnabledAccelerators, extent_foldl_y]
      exact attained (fun b => b.m_v3uiBlockKernelsExtentMax.y) (fun b hb => (hrep b hb).2.1) hne
    · simp only [getMaxBlockKernelExtentEnabledAccelerators, extent_foldl_z]
      exact attained (fun b => b.m_v3uiBlockKernelsExtentMax.z)
        (fun b hb => (hrep b hb).2.2.1) hne
    · simp only [getMaxBlockKernelCountEnabledAccelerators, count_foldl]
      exact attained (fun b => b.m_uiBlockKernelsCountMax) (fun b hb => (hrep b hb).2.2.2) hne
  · intro accs2 hperm
    constructor
    · unfold getMaxBlockKernelExtentEnabledAccelerators
      refine (List.Perm.foldl_eq' hperm ?_ _).symm
      intro a _ b _ v
      simp only [detail.CorrectMaxBlockKernelExtent, Vec3.mk.injEq]
      omega
    · unfold getMaxBlockKernelCountEnabledAccelerators
      refine (List.Perm.foldl_eq' hperm ?_ _).symm
      intro a _ b _ v
      simp only [detail.CorrectMaxBlockKernelCount]
      omega

/-- Instance of C7 on two back-ends with limits ((1024, 1024, 64), 1024) and
((512, 2048, 32), 512). -/
theorem enabledAccelerators_limits_are_minimum_witness :
    (∀ b ∈ [DeviceProperties.mk ⟨1024, 1024, 64⟩ 1024, DeviceProperties.mk ⟨512, 2048, 32⟩ 512],
      b.representable) ∧
    getMaxBlockKernelExtentEnabledAccelerators
      [DeviceProperties.mk ⟨1024, 1024, 64⟩ 1024, DeviceProperties.mk ⟨512, 2048, 32⟩ 512]
      = ⟨512, 1024, 32⟩ ∧
    getMaxBlockKernelCountEnabledAccelerators
      [DeviceProperties.mk ⟨1024, 1024, 64⟩ 1024, DeviceProperties.mk ⟨512, 2048, 32⟩ 512]
      = 512 ∧
    (getMaxBlockKernelExtentEnabledAccelerators
      [DeviceProperties.mk ⟨512, 2048, 32⟩ 512, DeviceProperties.mk ⟨1024, 1024, 64⟩ 1024]
      = getMaxBlockKernelExtentEnabledAccelerators
        [DeviceProperties.mk ⟨1024, 1024, 64⟩ 1024, DeviceProperties.mk ⟨512, 2048, 32⟩ 512] ∧
    getMaxBlockKernelCountEnabledAccelerators
      [DeviceProperties.mk ⟨512, 2048, 32⟩ 512, DeviceProperties.mk ⟨1024, 1024, 64⟩ 1024]
      = getMaxBlockKernelCountEnabledAccelerators
        [DeviceProperties.mk ⟨1024, 1024, 64⟩ 1024, DeviceProperties.mk ⟨512, 2048, 32⟩ 512]) :=
  ⟨by decide, by decide, by decide,
    (enabledAccelerators_limits_are_minimum
      [DeviceProperties.mk ⟨1024, 1024, 64⟩ 1024, DeviceProperties.mk ⟨512, 2048, 32⟩ 512]
      (by decide)).2.2.2 _ (List.Perm.swap _ _ _)⟩

/-- C8 (portability of the conservative partition): when `getValidWorkExtent` is
called without adaptive selection on a positive grid extent, every enabled
back-end has limits that are at least one, and the product of the clipped
extent does not overflow, then the returned block extent is in every dimension
at most the maximum block extent of every enabled back-end and the product of
its components is at most the maximum count of every enabled back-end. -/
theorem getValidWorkExtent_conservative_portable (NDEBUG : Bool) (A : SizeArith) (fuel : Nat)
    (TAcc : DeviceProperties) (accs : List DeviceProperties) (g : Vec3)
    (hg : g.allPos) (hv : ∀ b ∈ accs, b.valid)
    (hno : A.noOverflow (clipToGrid (getMaxBlockKernelExtentEnabledAccelerators accs) g))
    (hf : g.maxComp < 2 ^ fuel) :
    ∃ w, getValidWorkExtent NDEBUG A fuel TAcc accs g false = Except.ok w ∧
      ∀ b ∈ accs,
        w.blockKernelsExtent.x ≤ b.m_v3uiBlockKernelsExtentMax.x ∧
        w.blockKernelsExtent.y ≤ b.m_v3uiBlockKernelsExtentMax.y ∧
        w.blockKernelsExtent.z ≤ b.m_v3uiBlockKernelsExtentMax.z ∧
        w.blockKernelsExtent.x * w.blockKernelsExtent.y * w.blockKernelsExtent.z
          ≤ b.m_uiBlockKernelsCountMax := by
  have hl : (maxBlockLimits TAcc accs false).valid := by
    refine ⟨⟨?_, ?_, ?_⟩, ?_⟩
    · simp only [maxBlockLimits, Bool.false_eq_true, if_false,
        getMaxBlockKernelExtentEnabledAccelerators, extent_foldl_x]
      exact foldl_min_pos _ accs _ sizeMax_pos (fun b hb => (hv b hb).1.1)
    · simp only [maxBlockLimits, Bool.false_eq_true, if_false,
        getMaxBlockKernelExtentEnabledAccelerators, extent_foldl_y]
      exact foldl_min_pos _ accs _ sizeMax_pos (fun b hb => (hv b hb).1.2.1)
    · simp only [maxBlockLimits, Bool.false_eq_true, if_false,
        getMaxBlockKernelExtentEnabledAccelerators, extent_foldl_z]
      exact foldl_min_pos _ accs _ sizeMax_pos (fun b hb => (hv b hb).1.2.2)
    · simp only [maxBlockLimits, Bool.false_eq_true, if_false,
        getMaxBlockKernelCountEnabledAccelerators, count_foldl]
      exact foldl_min_pos _ accs _ sizeMax_pos (fun b hb => (hv b hb).2)
  obtain ⟨h, w, hw, -, cx, cy, cz, hp, -, bx, by_, bz, -⟩ :=
    getValidWorkExtent_props NDEBUG A fuel TAcc accs g false hg hl hf
  have hlim : maxBlockLimits TAcc accs false
      = ⟨getMaxBlockKernelExtentEnabledAccelerators accs,
          getMaxBlockKernelCountEnabledAccelerators accs⟩ := rfl
  rw [hlim] at cx cy cz hp
  simp only at cx cy cz hp
  have h1 : w.blockKernelsExtent.prodExact ≤ h.prodExact := prodExact_mono _ _ bx by_ bz
  have h2 : h.prodExact ≤ _ := prodExact_mono _ _ cx cy cz
  rw [prod_eq_prodExact_of_le A _ h hno h2] at hp
  refine ⟨w, hw, ?_⟩
  intro b hb
  simp only [clipToGrid] at cx cy cz
  obtain ⟨ax, ay, az, ak⟩ := enabledAccelerators_le_mem accs b hb
  refine ⟨by omega, by omega, by omega, le_trans (le_trans h1 hp) ak⟩

/-- Instance of C8 on two back-ends with limits ((1024, 1024, 64), 1024) and
((512, 2048, 32), 512) and the grid extent (1000, 7, 1), machine arithmetic. -/
theorem getValidWorkExtent_conservative_portable_witness :
    (Vec3.mk 1000 7 1).allPos ∧
    (∀ b ∈ [DeviceProperties.mk ⟨1024, 1024, 64⟩ 1024, DeviceProperties.mk ⟨512, 2048, 32⟩ 512],
      b.valid) ∧
    SizeArith.wrapping.noOverflow (clipToGrid (getMaxBlockKernelExtentEnabledAccelerators
      [DeviceProperties.mk ⟨1024, 1024, 64⟩ 1024, DeviceProperties.mk ⟨512, 2048, 32⟩ 512])
      ⟨1000, 7, 1⟩) ∧
    (Vec3.mk 1000 7 1).maxComp < 2 ^ 10 ∧
    ∃ w, getValidWorkExtent true SizeArith.wrapping 10 ⟨⟨1, 1, 1⟩, 1⟩
        [DeviceProperties.mk ⟨1024, 1024, 64⟩ 1024, DeviceProperties.mk ⟨512, 2048, 32⟩ 512]
        ⟨1000, 7, 1⟩ false = Except.ok w ∧
      ∀ b ∈ [DeviceProperties.mk ⟨1024, 1024, 64⟩ 1024,
          DeviceProperties.mk ⟨512, 2048, 32⟩ 512],
        w.blockKernelsExtent.x ≤ b.m_v3uiBlockKernelsExtentMax.x ∧
        w.blockKernelsExtent.y ≤ b.m_v3uiBlockKernelsExtentMax.y ∧
        w.blockKernelsExtent.z ≤ b.m_v3uiBlockKernelsExtentMax.z ∧
        w.blockKernelsExtent.x * w.blockKernelsExtent.y * w.blockKernelsExtent.z
          ≤ b.m_uiBlockKernelsCountMax :=
  ⟨by decide, by decide, by decide, by decide,
    getValidWorkExtent_conservative_portable true SizeArith.wrapping 10 ⟨⟨1, 1, 1⟩, 1⟩
      [DeviceProperties.mk ⟨1024, 1024, 64⟩ 1024, DeviceProperties.mk ⟨512, 2048, 32⟩ 512]
      ⟨1000, 7, 1⟩ (by decide) (by decide) (by decide) (by decide)⟩

/-- C9 (the halving ends within logarithmically many rounds): for a positive
grid extent and limits that are at least one, the clipping loop of
`getValidWorkExtent`, run on the block extent `c` clipped to the grid extent,
ends given enough fuel; the number `k` of rounds it executes satisfies
`2 ^ k ≤ M` and hence `k ≤ ⌈log2 M⌉`, where `M` is the largest component of
`c`; and the guarded clipping returns the extent halved `k` times. -/
theorem halving_rounds_logarithmic (A : SizeArith) (fuel : Nat) (TAcc : DeviceProperties)
    (accs : List DeviceProperties) (g : Vec3) (adaptive : Bool)
    (hg : g.allPos) (hl : (maxBlockLimits TAcc accs adaptive).valid)
    (hf : (clipToGrid (maxBlockLimits TAcc accs adaptive).m_v3uiBlockKernelsExtentMax g).maxComp
      < 2 ^ fuel) :
    ∃ k,
      halveRounds A (maxBlockLimits TAcc accs adaptive).m_uiBlockKernelsCountMax fuel
        (clipToGrid (maxBlockLimits TAcc accs adaptive).m_v3uiBlockKernelsExtentMax g)
        = Except.ok k ∧
      halveWhile A (maxBlockLimits TAcc accs adaptive).m_uiBlockKernelsCountMax fuel
        (clipToGrid (maxBlockLimits TAcc accs adaptive).m_v3uiBlockKernelsExtentMax g)
        = Except.ok (halve^[k]
          (clipToGrid (maxBlockLimits TAcc accs adaptive).m_v3uiBlockKernelsExtentMax g)) ∧
      clipToCount A fuel (maxBlockLimits TAcc accs adaptive).m_uiBlockKernelsCountMax
        (clipToGrid (maxBlockLimits TAcc accs adaptive).m_v3uiBlockKernelsExtentMax g)
        = Except.ok (halve^[k]
          (clipToGrid (maxBlockLimits TAcc accs adaptive).m_v3uiBlockKernelsExtentMax g)) ∧
      2 ^ k ≤
        (clipToGrid (maxBlockLimits TAcc accs adaptive).m_v3uiBlockKernelsExtentMax g).maxComp ∧
      k ≤ Nat.clog 2
        (clipToGrid (maxBlockLimits TAcc accs adaptive).m_v3uiBlockKernelsExtentMax g).maxComp := by
  have hc := clipToGrid_allPos _ g hl.1 hg
  obtain ⟨k, h1, h2, h3, h4, h5⟩ := halveWhile_spec A _ hl.2 fuel _ hc hf
  refine ⟨k, h2, h1, ?_, h3, ?_⟩
  · by_cases hgt : (clipToGrid (maxBlockLimits TAcc accs adaptive).m_v3uiBlockKernelsExtentMax
        g).prod A > (maxBlockLimits TAcc accs adaptive).m_uiBlockKernelsCountMax
    · simp [clipToCount, hgt, h1]
    · have hk : k = 0 := by
        rcases Nat.eq_zero_or_pos k with h0 | h0
        · exact h0
        · exact absurd (by simpa using h5 0 h0) hgt
      subst hk
      simp [clipToCount, hgt]
  · exact le_trans (Nat.le_log_of_pow_le (by decide) h3) (Nat.log_le_clog 2 _)

/-- Instance of C9 where two rounds run: grid extent (100, 64, 1) on a device
with limits ((32, 32, 32), 100). -/
theorem halving_rounds_logarithmic_witness :
    (Vec3.mk 100 64 1).allPos ∧
    (maxBlockLimits ⟨⟨32, 32, 32⟩, 100⟩ [] true).valid ∧
    (clipToGrid (maxBlockLimits ⟨⟨32, 32, 32⟩, 100⟩ [] true).m_v3uiBlockKernelsExtentMax
      ⟨100, 64, 1⟩).maxComp < 2 ^ 6 ∧
    halveRounds SizeArith.wrapping 100 6 ⟨32, 32, 1⟩ = Except.ok 2 ∧
    ∃ k,
      halveRounds SizeArith.wrapping
        (maxBlockLimits ⟨⟨32, 32, 32⟩, 100⟩ [] true).m_uiBlockKernelsCountMax 6
        (clipToGrid (maxBlockLimits ⟨⟨32, 32, 32⟩, 100⟩ [] true).m_v3uiBlockKernelsExtentMax
          ⟨100, 64, 1⟩) = Except.ok k ∧
      halveWhile SizeArith.wrapping
        (maxBlockLimits ⟨⟨32, 32, 32⟩, 100⟩ [] true).m_uiBlockKernelsCountMax 6
        (clipToGrid (maxBlockLimits ⟨⟨32, 32, 32⟩, 100⟩ [] true).m_v3uiBlockKernelsExtentMax
          ⟨100, 64, 1⟩)
        = Except.ok (halve^[k]
          (clipToGrid (maxBlockLimits ⟨⟨32, 32, 32⟩, 100⟩ [] true).m_v3uiBlockKernelsExtentMax
            ⟨100, 64, 1⟩)) ∧
      clipToCount SizeArith.wrapping 6
        (maxBlockLimits ⟨⟨32, 32, 32⟩, 100⟩ [] true).m_uiBlockKernelsCountMax
        (clipToGrid (maxBlockLimits ⟨⟨32, 32, 32⟩, 100⟩ [] true).m_v3uiBlockKernelsExtentMax
          ⟨100, 64, 1⟩)
        = Except.ok (halve^[k]
          (clipToGrid (maxBlockLimits ⟨⟨32, 32, 32⟩, 100⟩ [] true).m_v3uiBlockKernelsExtentMax
            ⟨100, 64, 1⟩)) ∧
      2 ^ k ≤
        (clipToGrid (maxBlockLimits ⟨⟨32, 32, 32⟩, 100⟩ [] true).m_v3uiBlockKernelsExtentMax
          ⟨100, 64, 1⟩).maxComp ∧
      k ≤ Nat.clog 2
        (clipToGrid (maxBlockLimits ⟨⟨32, 32, 32⟩, 100⟩ [] true).m_v3uiBlockKernelsExtentMax
          ⟨100, 64, 1⟩).maxComp :=
  ⟨by decide, by decide, by decide, by decide,
    halving_rounds_logarithmic SizeArith.wrapping 6 ⟨⟨32, 32, 32⟩, 100⟩ [] ⟨100, 64, 1⟩ true
      (by decide) (by decide) (by decide)⟩

/-- C10 (result components are never zero): for a positive grid extent and
limits that are at least one, every component of the returned block kernels
extent and every component of the returned grid blocks extent is at least
one. -/
theorem getValidWorkExtent_components_pos (NDEBUG : Bool) (A : SizeArith) (fuel : Nat) (TAcc : DeviceProperties)
    (accs : List DeviceProperties) (g : Vec3) (adaptive : Bool)
    (hg : g.allPos) (hl : (maxBlockLimits TAcc accs adaptive).valid)
    (hf : g.maxComp < 2 ^ fuel) :
    ∃ w, getValidWorkExtent NDEBUG A fuel TAcc accs g adaptive = Except.ok w ∧
      1 ≤ w.blockKernelsExtent.x ∧ 1 ≤ w.blockKernelsExtent.y ∧ 1 ≤ w.blockKernelsExtent.z ∧
      1 ≤ w.gridBlocksExtent.x ∧ 1 ≤ w.gridBlocksExtent.y ∧ 1 ≤ w.gridBlocksExtent.z := by
  obtain ⟨h, w, hw, -, cx, cy, cz, -, hb, bx, by_, bz, -, -, -, qx, qy, qz⟩ :=
    getValidWorkExtent_props NDEBUG A fuel TAcc accs g adaptive hg hl hf
  simp only [clipToGrid] at cx cy cz
  refine ⟨w, hw, hb.1, hb.2.1, hb.2.2, ?_, ?_, ?_⟩
  · rw [qx]; exact Nat.div_pos (by omega) hb.1
  · rw [qy]; exact Nat.div_pos (by omega) hb.2.1
  · rw [qz]; exact Nat.div_pos (by omega) hb.2.2

/-- Instance of C10 at the prime grid extent (97, 1, 13) on a device with limits
((32, 32, 32), 64). -/
theorem getValidWorkExtent_components_pos_witness :
    (Vec3.mk 97 1 13).allPos ∧
    (maxBlockLimits ⟨⟨32, 32, 32⟩, 64⟩ [] true).valid ∧
    (Vec3.mk 97 1 13).maxComp < 2 ^ 7 ∧
    ∃ w, getValidWorkExtent true SizeArith.wrapping 7 ⟨⟨32, 32, 32⟩, 64⟩ [] ⟨97, 1, 13⟩ true
        = Except.ok w ∧
      1 ≤ w.blockKernelsExtent.x ∧ 1 ≤ w.blockKernelsExtent.y ∧ 1 ≤ w.blockKernelsExtent.z ∧
      1 ≤ w.gridBlocksExtent.x ∧ 1 ≤ w.gridBlocksExtent.y ∧ 1 ≤ w.gridBlocksExtent.z :=
  ⟨by decide, by decide, by decide,
    getValidWorkExtent_components_pos true SizeArith.wrapping 7 ⟨⟨32, 32, 32⟩, 64⟩ [] ⟨97, 1, 13⟩ true
      (by decide) (by decide) (by decide)⟩

/-! ## Further properties of the partitioning -/

theorem nextLowerOrEqualFactor_self (n : Nat) (hn : 1 ≤ n) :
    detail.nextLowerOrEqualFactor n n = Except.ok n := by
  cases n with
  | zero => omega
  | succ d => simp [detail.nextLowerOrEqualFactor]

theorem nextLowerOrEqualFactor_prime (m p : Nat) (hp : p.Prime) (hm : 1 ≤ m) (hlt : m < p) :
    detail.nextLowerOrEqualFactor m p = Except.ok 1 := by
  obtain ⟨r, hr, -, h2, h3, -⟩ := nextLowerOrEqualFactor_spec p m hm
  rcases (Nat.dvd_prime hp).mp (Nat.dvd_of_mod_eq_zero h3) with h | h
  · rw [hr, h]
  · omega

/-- A grid extent that fits in one block as the code computes it: when the grid
extent is within the maximum block extent in every dimension and its product,
as computed, is at most the count, the block extent is the grid extent and the
grid consists of one block. -/
theorem getValidWorkExtent_of_fits (NDEBUG : Bool) (A : SizeArith) (fuel : Nat) (TAcc : DeviceProperties)
    (accs : List DeviceProperties) (g : Vec3) (adaptive : Bool) (hg : g.allPos)
    (hx : g.x ≤ (maxBlockLimits TAcc accs adaptive).m_v3uiBlockKernelsExtentMax.x)
    (hy : g.y ≤ (maxBlockLimits TAcc accs adaptive).m_v3uiBlockKernelsExtentMax.y)
    (hz : g.z ≤ (maxBlockLimits TAcc accs adaptive).m_v3uiBlockKernelsExtentMax.z)
    (hp : g.prod A ≤ (maxBlockLimits TAcc accs adaptive).m_uiBlockKernelsCountMax) :
    getValidWorkExtent NDEBUG A fuel TAcc accs g adaptive
      = Except.ok { gridBlocksExtent := ⟨1, 1, 1⟩, blockKernelsExtent := g } := by
  have hclip : clipToGrid (maxBlockLimits TAcc accs adaptive).m_v3uiBlockKernelsExtentMax g
      = g := by
    cases g with
    | mk x y z =>
      simp only [clipToGrid, Vec3.mk.injEq]
      simp only at hx hy hz
      omega
  have hcount : clipToCount A fuel (maxBlockLimits TAcc accs adaptive).m_uiBlockKernelsCountMax g
      = Except.ok g := by
    have : ¬ (g.prod A > (maxBlockLimits TAcc accs adaptive).m_uiBlockKernelsCountMax) := by
      omega
    simp [clipToCount, this]
  have hgx : g.x > 0 := hg.1
  have hgy : g.y > 0 := hg.2.1
  have hgz : g.z > 0 := hg.2.2
  simp only [getValidWorkExtent, hgx, hgy, hgz, not_true_eq_false, and_false, if_false, hclip, hcount,
    nextLowerOrEqualFactor_self _ hgx, nextLowerOrEqualFactor_self _ hgy,
    nextLowerOrEqualFactor_self _ hgz, divide_ok _ _ hgx, divide_ok _ _ hgy, divide_ok _ _ hgz,
    Nat.div_self hgx, Nat.div_self hgy, Nat.div_self hgz, bind, Except.bind, pure, Except.pure]

/-- C11 (documented postcondition 1, as the doc comment means it): for a maximum
divisor and a dividend that are at least one, the value `ret` returned by
`detail::nextLowerOrEqualFactor` satisfies `uiDividend % ret == 0`; the quotient
`uiDividend / ret` is at least one, hence never zero. -/
theorem nextLowerOrEqualFactor_remainder_zero (uiMaxDivisor uiDividend : Nat)
    (hm : 1 ≤ uiMaxDivisor) (hn : 1 ≤ uiDividend) :
    ∃ ret, detail.nextLowerOrEqualFactor uiMaxDivisor uiDividend = Except.ok ret ∧
      uiDividend % ret = 0 ∧ 1 ≤ uiDividend / ret := by
  obtain ⟨r, hr, h1, -, h3, -⟩ := nextLowerOrEqualFactor_spec uiDividend uiMaxDivisor hm
  refine ⟨r, hr, h3, ?_⟩
  have hle : r ≤ uiDividend := Nat.le_of_dvd (by omega) (Nat.dvd_of_mod_eq_zero h3)
  exact Nat.div_pos hle (by omega)

/-- Instance of the amended C11 at maximum divisor 32 and dividend 100. -/
theorem nextLowerOrEqualFactor_remainder_zero_witness :
    1 ≤ 32 ∧ 1 ≤ 100 ∧
    ∃ ret, detail.nextLowerOrEqualFactor 32 100 = Except.ok ret ∧
      100 % ret = 0 ∧ 1 ≤ 100 / ret :=
  ⟨by decide, by decide, nextLowerOrEqualFactor_remainder_zero 32 100 (by decide) (by decide)⟩

/-- C11 as the doc comment writes it fails: with maximum divisor 32 and dividend
100, both at least one, the function returns 25 and `100 / 25` is 4, not 0. -/
theorem nextLowerOrEqualFactor_quotient_nonzero :
    1 ≤ 32 ∧ 1 ≤ 100 ∧ detail.nextLowerOrEqualFactor 32 100 = Except.ok 25 ∧
      ¬ (100 / 25 = 0) := by
  decide

/-- C12 (product overflow is unchecked): with the product reduced modulo
`2 ^ 64`, the positive grid extent (2^32, 2^32, 1) on a device with maximum
block extent (2^32, 2^32, 1) and maximum count 1024 (limits that are at least
one and are `std::size_t` values) makes `getValidWorkExtent` return, whatever
the fuel, the block extent (2^32, 2^32, 1): the wrapped product of the clipped
extent is 0, which compares as fitting, while the exact product 2^64 of the
returned block extent exceeds 1024. -/
theorem getValidWorkExtent_overflow_unchecked (NDEBUG : Bool) (fuel : Nat) (accs : List DeviceProperties) :
    (Vec3.mk (2 ^ 32) (2 ^ 32) 1).allPos ∧
    (DeviceProperties.mk ⟨2 ^ 32, 2 ^ 32, 1⟩ 1024).valid ∧
    (DeviceProperties.mk ⟨2 ^ 32, 2 ^ 32, 1⟩ 1024).representable ∧
    (clipToGrid ⟨2 ^ 32, 2 ^ 32, 1⟩ ⟨2 ^ 32, 2 ^ 32, 1⟩).prod SizeArith.wrapping = 0 ∧
    getValidWorkExtent NDEBUG SizeArith.wrapping fuel ⟨⟨2 ^ 32, 2 ^ 32, 1⟩, 1024⟩ accs
      ⟨2 ^ 32, 2 ^ 32, 1⟩ true
      = Except.ok ⟨⟨1, 1, 1⟩, ⟨2 ^ 32, 2 ^ 32, 1⟩⟩ ∧
    1024 < (Vec3.mk (2 ^ 32) (2 ^ 32) 1).prodExact := by
  refine ⟨by decide, by decide, by decide, by decide, ?_, by decide⟩
  exact getValidWorkExtent_of_fits NDEBUG SizeArith.wrapping fuel ⟨⟨2 ^ 32, 2 ^ 32, 1⟩, 1024⟩ accs
    ⟨2 ^ 32, 2 ^ 32, 1⟩ true (by decide) (le_refl _) (le_refl _) (le_refl _)
    (by simp [maxBlockLimits, Vec3.prod, Vec3.prodExact, SizeArith.wrap, sizeBits])

/-- C18 (the block extent is not monotone in the limits): there are a positive
grid extent, a count, and two maximum block extents `L ≤ L2` component-wise such
that the block extent returned under `L2` has a strictly smaller product than
the one returned under `L`: with grid extent (12, 1, 1) and count 6, `L` =
(6, 1, 1) gives block extent (6, 1, 1) and `L2` = (7, 1, 1) makes the halving
run and gives (3, 1, 1). -/
theorem getValidWorkExtent_not_monotone (NDEBUG : Bool) (A : SizeArith) :
    ∃ (g L L2 : Vec3) (uiMax : Nat) (w w2 : WorkExtent),
      g.allPos ∧ L.allPos ∧ 1 ≤ uiMax ∧ L.x ≤ L2.x ∧ L.y ≤ L2.y ∧ L.z ≤ L2.z ∧
      g = ⟨12, 1, 1⟩ ∧ L = ⟨6, 1, 1⟩ ∧ L2 = ⟨7, 1, 1⟩ ∧ uiMax = 6 ∧
      getValidWorkExtent NDEBUG A 4 ⟨L, uiMax⟩ [] g true = Except.ok w ∧
      getValidWorkExtent NDEBUG A 4 ⟨L2, uiMax⟩ [] g true = Except.ok w2 ∧
      w.blockKernelsExtent = ⟨6, 1, 1⟩ ∧ w2.blockKernelsExtent = ⟨3, 1, 1⟩ ∧
      w2.blockKernelsExtent.prodExact < w.blockKernelsExtent.prodExact := by
  refine ⟨⟨12, 1, 1⟩, ⟨6, 1, 1⟩, ⟨7, 1, 1⟩, 6, ⟨⟨2, 1, 1⟩, ⟨6, 1, 1⟩⟩, ⟨⟨4, 1, 1⟩, ⟨3, 1, 1⟩⟩, ?_⟩
  cases NDEBUG <;> cases A <;> decide

/-- C13 (grid that fits in one block): for a positive grid extent that is within
the maximum block extent in every dimension and whose product is at most the
maximum count, `getValidWorkExtent` returns the grid extent as block extent and
(1, 1, 1) as grid blocks extent; in particular the grid extent (1, 1, 1) yields
block extent (1, 1, 1) and grid blocks extent (1, 1, 1) for all limits that are
at least one in every dimension and in the count. -/
theorem getValidWorkExtent_fits_in_one_block (NDEBUG : Bool) (A : SizeArith) (fuel : Nat)
    (TAcc : DeviceProperties) (accs : List DeviceProperties) (g : Vec3) (adaptive : Bool) :
    (g.allPos →
      g.x ≤ (maxBlockLimits TAcc accs adaptive).m_v3uiBlockKernelsExtentMax.x →
      g.y ≤ (maxBlockLimits TAcc accs adaptive).m_v3uiBlockKernelsExtentMax.y →
      g.z ≤ (maxBlockLimits TAcc accs adaptive).m_v3uiBlockKernelsExtentMax.z →
      g.x * g.y * g.z ≤ (maxBlockLimits TAcc accs adaptive).m_uiBlockKernelsCountMax →
      getValidWorkExtent NDEBUG A fuel TAcc accs g adaptive
        = Except.ok { gridBlocksExtent := ⟨1, 1, 1⟩, blockKernelsExtent := g }) ∧
    ((maxBlockLimits TAcc accs adaptive).valid →
      getValidWorkExtent NDEBUG A fuel TAcc accs ⟨1, 1, 1⟩ adaptive
        = Except.ok { gridBlocksExtent := ⟨1, 1, 1⟩, blockKernelsExtent := ⟨1, 1, 1⟩ }) := by
  constructor
  · intro hg hx hy hz hp
    exact getValidWorkExtent_of_fits NDEBUG A fuel TAcc accs g adaptive hg hx hy hz
      (le_trans (wrap_le A _) hp)
  · intro hl
    refine getValidWorkExtent_of_fits NDEBUG A fuel TAcc accs ⟨1, 1, 1⟩ adaptive (by decide)
      hl.1.1 hl.1.2.1 hl.1.2.2 ?_
    have h1 : (Vec3.mk 1 1 1).prod A = 1 := by
      simp [Vec3.prod, Vec3.prodExact, wrap_one]
    rw [h1]; exact hl.2

/-- Instance of C13 at the grid extent (8, 4, 2) on a device with limits
((32, 32, 32), 64). -/
theorem getValidWorkExtent_fits_in_one_block_witness :
    (Vec3.mk 8 4 2).allPos ∧
    (8 ≤ (maxBlockLimits ⟨⟨32, 32, 32⟩, 64⟩ [] true).m_v3uiBlockKernelsExtentMax.x ∧
      4 ≤ (maxBlockLimits ⟨⟨32, 32, 32⟩, 64⟩ [] true).m_v3uiBlockKernelsExtentMax.y ∧
      2 ≤ (maxBlockLimits ⟨⟨32, 32, 32⟩, 64⟩ [] true).m_v3uiBlockKernelsExtentMax.z) ∧
    8 * 4 * 2 ≤ (maxBlockLimits ⟨⟨32, 32, 32⟩, 64⟩ [] true).m_uiBlockKernelsCountMax ∧
    (maxBlockLimits ⟨⟨32, 32, 32⟩, 64⟩ [] true).valid ∧
    getValidWorkExtent true SizeArith.wrapping 0 ⟨⟨32, 32, 32⟩, 64⟩ [] ⟨8, 4, 2⟩ true
      = Except.ok { gridBlocksExtent := ⟨1, 1, 1⟩, blockKernelsExtent := ⟨8, 4, 2⟩ } ∧
    getValidWorkExtent true SizeArith.wrapping 0 ⟨⟨32, 32, 32⟩, 64⟩ [] ⟨1, 1, 1⟩ true
      = Except.ok { gridBlocksExtent := ⟨1, 1, 1⟩, blockKernelsExtent := ⟨1, 1, 1⟩ } :=
  ⟨by decide, by decide, by decide, by decide,
    (getValidWorkExtent_fits_in_one_block true SizeArith.wrapping 0 ⟨⟨32, 32, 32⟩, 64⟩ []
      ⟨8, 4, 2⟩ true).1 (by decide) (by decide) (by decide) (by decide) (by decide),
    (getValidWorkExtent_fits_in_one_block true SizeArith.wrapping 0 ⟨⟨32, 32, 32⟩, 64⟩ []
      ⟨8, 4, 2⟩ true).2 (by decide)⟩

/-- C14 (a prime grid extent degrades to block size one): for a positive grid
extent and valid limits, let `h` be the maximum block extent after the clipping
to the grid extent and to the count; in every dimension `d` in which the grid
extent is a prime number and the limit is below it, or `h` is below it, the
returned block extent is 1 and the returned grid blocks extent is the grid
extent. -/
theorem getValidWorkExtent_prime_extent (NDEBUG : Bool) (A : SizeArith) (fuel : Nat) (TAcc : DeviceProperties)
    (accs : List DeviceProperties) (g : Vec3) (adaptive : Bool)
    (hg : g.allPos) (hl : (maxBlockLimits TAcc accs adaptive).valid)
    (hf : g.maxComp < 2 ^ fuel) :
    ∃ (h : Vec3) (w : WorkExtent),
      clipToCount A fuel (maxBlockLimits TAcc accs adaptive).m_uiBlockKernelsCountMax
        (clipToGrid (maxBlockLimits TAcc accs adaptive).m_v3uiBlockKernelsExtentMax g)
        = Except.ok h ∧
      getValidWorkExtent NDEBUG A fuel TAcc accs g adaptive = Except.ok w ∧
      (g.x.Prime →
        ((maxBlockLimits TAcc accs adaptive).m_v3uiBlockKernelsExtentMax.x < g.x ∨ h.x < g.x) →
        w.blockKernelsExtent.x = 1 ∧ w.gridBlocksExtent.x = g.x) ∧
      (g.y.Prime →
        ((maxBlockLimits TAcc accs adaptive).m_v3uiBlockKernelsExtentMax.y < g.y ∨ h.y < g.y) →
        w.blockKernelsExtent.y = 1 ∧ w.gridBlocksExtent.y = g.y) ∧
      (g.z.Prime →
        ((maxBlockLimits TAcc accs adaptive).m_v3uiBlockKernelsExtentMax.z < g.z ∨ h.z < g.z) →
        w.blockKernelsExtent.z = 1 ∧ w.gridBlocksExtent.z = g.z) := by
  obtain ⟨h, bx, by_, bz, hh, hpos, hbx, hby, hbz, hrun⟩ :=
    getValidWorkExtent_run NDEBUG A fuel TAcc accs g adaptive hg hl hf
  have hc := clipToGrid_allPos _ g hl.1 hg
  have hf2 := lt_of_le_of_lt
    (clipToGrid_maxComp_le (maxBlockLimits TAcc accs adaptive).m_v3uiBlockKernelsExtentMax g) hf
  obtain ⟨h2, hh2, -, cx, cy, cz, -⟩ := clipToCount_spec A _ hl.2 fuel _ hc hf2
  have heq : h2 = h := by
    rw [hh2] at hh; exact Except.ok.inj hh
  subst heq
  simp only [clipToGrid] at cx cy cz
  refine ⟨h2, _, hh2, hrun, ?_, ?_, ?_⟩
  · intro hp hlt
    have hb := nextLowerOrEqualFactor_prime h2.x g.x hp hpos.1 (by omega)
    have e : bx = 1 := by rw [hb] at hbx; exact (Except.ok.inj hbx).symm
    subst e
    exact ⟨rfl, Nat.div_one _⟩
  · intro hp hlt
    have hb := nextLowerOrEqualFactor_prime h2.y g.y hp hpos.2.1 (by omega)
    have e : by_ = 1 := by rw [hb] at hby; exact (Except.ok.inj hby).symm
    subst e
    exact ⟨rfl, Nat.div_one _⟩
  · intro hp hlt
    have hb := nextLowerOrEqualFactor_prime h2.z g.z hp hpos.2.2 (by omega)
    have e : bz = 1 := by rw [hb] at hbz; exact (Except.ok.inj hbz).symm
    subst e
    exact ⟨rfl, Nat.div_one _⟩

/-- Instance of C14 at the grid extent (97, 1, 13) on a device with limits
((32, 32, 32), 64): 97 is prime and above the limit 32, 13 is prime and is
reduced below 13 by the halving. -/
theorem getValidWorkExtent_prime_extent_witness :
    (Vec3.mk 97 1 13).allPos ∧
    (maxBlockLimits ⟨⟨32, 32, 32⟩, 64⟩ [] true).valid ∧
    (Vec3.mk 97 1 13).maxComp < 2 ^ 7 ∧
    getValidWorkExtent false SizeArith.exact 7 ⟨⟨32, 32, 32⟩, 64⟩ [] ⟨97, 1, 13⟩ true
      = Except.ok ⟨⟨97, 1, 13⟩, ⟨1, 1, 1⟩⟩ ∧
    ∃ (h : Vec3) (w : WorkExtent),
      clipToCount SizeArith.exact 7
        (maxBlockLimits ⟨⟨32, 32, 32⟩, 64⟩ [] true).m_uiBlockKernelsCountMax
        (clipToGrid (maxBlockLimits ⟨⟨32, 32, 32⟩, 64⟩ [] true).m_v3uiBlockKernelsExtentMax
          ⟨97, 1, 13⟩) = Except.ok h ∧
      getValidWorkExtent false SizeArith.exact 7 ⟨⟨32, 32, 32⟩, 64⟩ [] ⟨97, 1, 13⟩ true
        = Except.ok w ∧
      (Nat.Prime 97 →
        ((maxBlockLimits ⟨⟨32, 32, 32⟩, 64⟩ [] true).m_v3uiBlockKernelsExtentMax.x < 97
          ∨ h.x < 97) →
        w.blockKernelsExtent.x = 1 ∧ w.gridBlocksExtent.x = 97) ∧
      (Nat.Prime 1 →
        ((maxBlockLimits ⟨⟨32, 32, 32⟩, 64⟩ [] true).m_v3uiBlockKernelsExtentMax.y < 1
          ∨ h.y < 1) →
        w.blockKernelsExtent.y = 1 ∧ w.gridBlocksExtent.y = 1) ∧
      (Nat.Prime 13 →
        ((maxBlockLimits ⟨⟨32, 32, 32⟩, 64⟩ [] true).m_v3uiBlockKernelsExtentMax.z < 13
          ∨ h.z < 13) →
        w.blockKernelsExtent.z = 1 ∧ w.gridBlocksExtent.z = 13) :=
  ⟨by decide, by decide, by decide, by decide,
    getValidWorkExtent_prime_extent false SizeArith.exact 7 ⟨⟨32, 32, 32⟩, 64⟩ [] ⟨97, 1, 13⟩ true
      (by decide) (by decide) (by decide)⟩

/-- C15 (the live-hardware query returns the hardware coordinates unchanged): for
every launch configuration `(gridDim, blockDim)`, the block-threads query
returns `(blockDim.x, blockDim.y, blockDim.z)` and the grid-blocks query returns
`(gridDim.x, gridDim.y, gridDim.z)`, in that order, and both results are the
same for any two `WorkDivCuda` objects. -/
theorem getWorkDiv_cuda_hardware (hw : CudaBuiltins) (workDiv workDiv2 : cuda.detail.WorkDivCuda) :
    traits.workdiv.GetWorkDivBlockThreadsDim3.getWorkDiv hw workDiv
      = Vec3.mk hw.blockDim.x hw.blockDim.y hw.blockDim.z ∧
    traits.workdiv.GetWorkDivGridBlocksDim3.getWorkDiv hw workDiv
      = Vec3.mk hw.gridDim.x hw.gridDim.y hw.gridDim.z ∧
    traits.workdiv.GetWorkDivBlockThreadsDim3.getWorkDiv hw workDiv
      = traits.workdiv.GetWorkDivBlockThreadsDim3.getWorkDiv hw workDiv2 ∧
    traits.workdiv.GetWorkDivGridBlocksDim3.getWorkDiv hw workDiv
      = traits.workdiv.GetWorkDivGridBlocksDim3.getWorkDiv hw workDiv2 :=
  ⟨rfl, rfl, rfl, rfl⟩

theorem halve_closedFormHalving (k : Nat) (c : Vec3) :
    halve (closedFormHalving k c) = closedFormHalving (k + 1) c := by
  have key : ∀ n : Nat, max 1 (max 1 (n / 2 ^ k) / 2) = max 1 (n / 2 ^ (k + 1)) := by
    intro n
    have h : n / 2 ^ (k + 1) = n / 2 ^ k / 2 := by
      rw [Nat.pow_succ, Nat.div_div_eq_div_mul]
    rw [h]
    omega
  simp only [halve, closedFormHalving, key]

theorem halve_iterate_closedForm (c : Vec3) (hc : c.allPos) (k : Nat) :
    halve^[k] c = closedFormHalving k c := by
  induction k with
  | zero =>
    cases c with
    | mk x y z =>
      simp only [Vec3.allPos] at hc
      simp only [Function.iterate_zero, id_eq, closedFormHalving, pow_zero, Nat.div_one,
        Vec3.mk.injEq]
      omega
  | succ k ih =>
    rw [Function.iterate_succ_apply', ih, halve_closedFormHalving]

/-- C16 (the halving step in closed form, without overflow): for a positive grid
extent and limits that are at least one, let `c` be the maximum block extent
clipped to the grid extent and `h` the extent that `getValidWorkExtent` passes
to the divisor search, and let the product be computed over the unbounded
naturals or the product of `c` be below `2 ^ 64`.  If the product of `c` is at
most the count, `h` is `c`; otherwise `h` has the components
`max(1, ⌊c[d] / 2^k⌋)` for the least `k ≥ 1` for which the product of those
components is at most the count. -/
theorem getValidWorkExtent_halving_closed_form (NDEBUG : Bool) (A : SizeArith) (fuel : Nat)
    (TAcc : DeviceProperties) (accs : List DeviceProperties) (g : Vec3) (adaptive : Bool)
    (hg : g.allPos) (hl : (maxBlockLimits TAcc accs adaptive).valid)
    (hno : A.noOverflow
      (clipToGrid (maxBlockLimits TAcc accs adaptive).m_v3uiBlockKernelsExtentMax g))
    (hf : g.maxComp < 2 ^ fuel) :
    ∃ (h : Vec3) (bx by_ bz : Nat),
      clipToCount A fuel (maxBlockLimits TAcc accs adaptive).m_uiBlockKernelsCountMax
        (clipToGrid (maxBlockLimits TAcc accs adaptive).m_v3uiBlockKernelsExtentMax g)
        = Except.ok h ∧
      detail.nextLowerOrEqualFactor h.x g.x = Except.ok bx ∧
      detail.nextLowerOrEqualFactor h.y g.y = Except.ok by_ ∧
      detail.nextLowerOrEqualFactor h.z g.z = Except.ok bz ∧
      getValidWorkExtent NDEBUG A fuel TAcc accs g adaptive
        = Except.ok { gridBlocksExtent := { x := g.x / bx, y := g.y / by_, z := g.z / bz }
                      blockKernelsExtent := { x := bx, y := by_, z := bz } } ∧
      ((clipToGrid (maxBlockLimits TAcc accs adaptive).m_v3uiBlockKernelsExtentMax g).prodExact
          ≤ (maxBlockLimits TAcc accs adaptive).m_uiBlockKernelsCountMax →
        h = clipToGrid (maxBlockLimits TAcc accs adaptive).m_v3uiBlockKernelsExtentMax g) ∧
      ((maxBlockLimits TAcc accs adaptive).m_uiBlockKernelsCountMax
          < (clipToGrid (maxBlockLimits TAcc accs adaptive).m_v3uiBlockKernelsExtentMax
              g).prodExact →
        ∃ k, 1 ≤ k ∧
          h = closedFormHalving k
            (clipToGrid (maxBlockLimits TAcc accs adaptive).m_v3uiBlockKernelsExtentMax g) ∧
          (closedFormHalving k
            (clipToGrid (maxBlockLimits TAcc accs adaptive).m_v3uiBlockKernelsExtentMax
              g)).prodExact
            ≤ (maxBlockLimits TAcc accs adaptive).m_uiBlockKernelsCountMax ∧
          ∀ j, 1 ≤ j → j < k →
            (maxBlockLimits TAcc accs adaptive).m_uiBlockKernelsCountMax
              < (closedFormHalving j (clipToGrid
                  (maxBlockLimits TAcc accs adaptive).m_v3uiBlockKernelsExtentMax
                  g)).prodExact) := by
  obtain ⟨h, bx, by_, bz, hh, -, hbx, hby, hbz, hrun⟩ :=
    getValidWorkExtent_run NDEBUG A fuel TAcc accs g adaptive hg hl hf
  have hc := clipToGrid_allPos _ g hl.1 hg
  have hf2 := lt_of_le_of_lt
    (clipToGrid_maxComp_le (maxBlockLimits TAcc accs adaptive).m_v3uiBlockKernelsExtentMax g) hf
  have hexact : ∀ j, (halve^[j]
      (clipToGrid (maxBlockLimits TAcc accs adaptive).m_v3uiBlockKernelsExtentMax g)).prod A
      = (halve^[j]
      (clipToGrid (maxBlockLimits TAcc accs adaptive).m_v3uiBlockKernelsExtentMax g)).prodExact := by
    intro j
    have hle := halve_iterate_le _ hc j
    exact prod_eq_prodExact_of_le A _ _ hno (prodExact_mono _ _ hle.1 hle.2.1 hle.2.2)
  have hexact0 := hexact 0
  simp only [Function.iterate_zero, id_eq] at hexact0
  refine ⟨h, bx, by_, bz, hh, hbx, hby, hbz, hrun, ?_, ?_⟩
  · intro hle
    rw [← hexact0] at hle
    have hn : ¬ ((clipToGrid (maxBlockLimits TAcc accs adaptive).m_v3uiBlockKernelsExtentMax
        g).prod A > (maxBlockLimits TAcc accs adaptive).m_uiBlockKernelsCountMax) := by omega
    simp only [clipToCount, hn, if_false] at hh
    exact (Except.ok.inj hh).symm
  · intro hgt
    rw [← hexact0] at hgt
    obtain ⟨k, h1, -, -, h4, h5⟩ := halveWhile_spec A _ hl.2 fuel _ hc hf2
    have hgt2 : (clipToGrid (maxBlockLimits TAcc accs adaptive).m_v3uiBlockKernelsExtentMax
        g).prod A > (maxBlockLimits TAcc accs adaptive).m_uiBlockKernelsCountMax := hgt
    simp only [clipToCount, hgt2, if_true] at hh
    rw [h1] at hh
    have hk : 1 ≤ k := by
      rcases Nat.eq_zero_or_pos k with h0 | h0
      · subst h0
        simp only [Function.iterate_zero, id_eq] at h4
        omega
      · exact h0
    refine ⟨k, hk, ?_, ?_, ?_⟩
    · rw [← halve_iterate_closedForm _ hc]; exact (Except.ok.inj hh).symm
    · rw [← halve_iterate_closedForm _ hc, ← hexact k]; exact h4
    · intro j _ hj
      rw [← halve_iterate_closedForm _ hc, ← hexact j]; exact h5 j hj

/-- Instance of the amended C16 where two rounds of halving run, in machine
arithmetic: grid extent (100, 64, 1) on a device with limits
((32, 32, 32), 100); the clipped extent (32, 32, 1) becomes (8, 8, 1). -/
theorem getValidWorkExtent_halving_closed_form_witness :
    (Vec3.mk 100 64 1).allPos ∧
    (maxBlockLimits ⟨⟨32, 32, 32⟩, 100⟩ [] true).valid ∧
    SizeArith.wrapping.noOverflow
      (clipToGrid (maxBlockLimits ⟨⟨32, 32, 32⟩, 100⟩ [] true).m_v3uiBlockKernelsExtentMax
        ⟨100, 64, 1⟩) ∧
    (Vec3.mk 100 64 1).maxComp < 2 ^ 7 ∧
    clipToCount SizeArith.wrapping 7 100 (clipToGrid ⟨32, 32, 32⟩ ⟨100, 64, 1⟩)
      = Except.ok (closedFormHalving 2 ⟨32, 32, 1⟩) ∧
    closedFormHalving 2 ⟨32, 32, 1⟩ = ⟨8, 8, 1⟩ ∧
    ∃ (h : Vec3) (bx by_ bz : Nat),
      clipToCount SizeArith.wrapping 7
        (maxBlockLimits ⟨⟨32, 32, 32⟩, 100⟩ [] true).m_uiBlockKernelsCountMax
        (clipToGrid (maxBlockLimits ⟨⟨32, 32, 32⟩, 100⟩ [] true).m_v3uiBlockKernelsExtentMax
          ⟨100, 64, 1⟩) = Except.ok h ∧
      detail.nextLowerOrEqualFactor h.x 100 = Except.ok bx ∧
      detail.nextLowerOrEqualFactor h.y 64 = Except.ok by_ ∧
      detail.nextLowerOrEqualFactor h.z 1 = Except.ok bz ∧
      getValidWorkExtent true SizeArith.wrapping 7 ⟨⟨32, 32, 32⟩, 100⟩ [] ⟨100, 64, 1⟩ true
        = Except.ok { gridBlocksExtent := { x := 100 / bx, y := 64 / by_, z := 1 / bz }
                      blockKernelsExtent := { x := bx, y := by_, z := bz } } ∧
      ((clipToGrid (maxBlockLimits ⟨⟨32, 32, 32⟩, 100⟩ [] true).m_v3uiBlockKernelsExtentMax
            ⟨100, 64, 1⟩).prodExact
          ≤ (maxBlockLimits ⟨⟨32, 32, 32⟩, 100⟩ [] true).m_uiBlockKernelsCountMax →
        h = clipToGrid (maxBlockLimits ⟨⟨32, 32, 32⟩, 100⟩ [] true).m_v3uiBlockKernelsExtentMax
          ⟨100, 64, 1⟩) ∧
      ((maxBlockLimits ⟨⟨32, 32, 32⟩, 100⟩ [] true).m_uiBlockKernelsCountMax
          < (clipToGrid (maxBlockLimits ⟨⟨32, 32, 32⟩, 100⟩ [] true).m_v3uiBlockKernelsExtentMax
            ⟨100, 64, 1⟩).prodExact →
        ∃ k, 1 ≤ k ∧
          h = closedFormHalving k
            (clipToGrid (maxBlockLimits ⟨⟨32, 32, 32⟩, 100⟩ [] true).m_v3uiBlockKernelsExtentMax
              ⟨100, 64, 1⟩) ∧
          (closedFormHalving k
            (clipToGrid (maxBlockLimits ⟨⟨32, 32, 32⟩, 100⟩ [] true).m_v3uiBlockKernelsExtentMax
              ⟨100, 64, 1⟩)).prodExact
            ≤ (maxBlockLimits ⟨⟨32, 32, 32⟩, 100⟩ [] true).m_uiBlockKernelsCountMax ∧
          ∀ j, 1 ≤ j → j < k →
            (maxBlockLimits ⟨⟨32, 32, 32⟩, 100⟩ [] true).m_uiBlockKernelsCountMax
              < (closedFormHalving j (clipToGrid
                  (maxBlockLimits ⟨⟨32, 32, 32⟩, 100⟩ [] true).m_v3uiBlockKernelsExtentMax
                  ⟨100, 64, 1⟩)).prodExact) :=
  ⟨by decide, by decide, by decide, by decide, by decide, by decide,
    getValidWorkExtent_halving_closed_form true SizeArith.wrapping 7 ⟨⟨32, 32, 32⟩, 100⟩ []
      ⟨100, 64, 1⟩ true (by decide) (by decide) (by decide) (by decide)⟩

/-- C16 as stated fails in machine arithmetic: for the positive grid extent
(2^32, 2^32, 1) on a device with limits ((2^32, 2^32, 1), 1024) the clipped
extent (2^32, 2^32, 1) has the product 2^64, above the count, and the closed
form for the least fitting `k`, which is 27, is (32, 32, 1); but the product
wraps to 0, the halving does not run, and the extent passed to the divisor
search is the clipped extent unchanged, which is no closed form for any
`k ≥ 1`. -/
theorem getValidWorkExtent_halving_closed_form_overflow :
    (Vec3.mk (2 ^ 32) (2 ^ 32) 1).allPos ∧
    (maxBlockLimits ⟨⟨2 ^ 32, 2 ^ 32, 1⟩, 1024⟩ [] true).valid ∧
    (Vec3.mk (2 ^ 32) (2 ^ 32) 1).maxComp < 2 ^ 40 ∧
    clipToGrid ⟨2 ^ 32, 2 ^ 32, 1⟩ ⟨2 ^ 32, 2 ^ 32, 1⟩ = ⟨2 ^ 32, 2 ^ 32, 1⟩ ∧
    1024 < (Vec3.mk (2 ^ 32) (2 ^ 32) 1).prodExact ∧
    closedFormHalving 27 ⟨2 ^ 32, 2 ^ 32, 1⟩ = ⟨32, 32, 1⟩ ∧
    (closedFormHalving 27 ⟨2 ^ 32, 2 ^ 32, 1⟩).prodExact ≤ 1024 ∧
    1024 < (closedFormHalving 26 ⟨2 ^ 32, 2 ^ 32, 1⟩).prodExact ∧
    clipToCount SizeArith.wrapping 40 1024 ⟨2 ^ 32, 2 ^ 32, 1⟩
      = Except.ok ⟨2 ^ 32, 2 ^ 32, 1⟩ ∧
    getValidWorkExtent true SizeArith.wrapping 40 ⟨⟨2 ^ 32, 2 ^ 32, 1⟩, 1024⟩ []
      ⟨2 ^ 32, 2 ^ 32, 1⟩ true = Except.ok ⟨⟨1, 1, 1⟩, ⟨2 ^ 32, 2 ^ 32, 1⟩⟩ ∧
    ¬ ∃ k, 1 ≤ k ∧ Vec3.mk (2 ^ 32) (2 ^ 32) 1 = closedFormHalving k ⟨2 ^ 32, 2 ^ 32, 1⟩ := by
  refine ⟨by decide, by decide, by decide, by decide, by decide, by decide, by decide,
    by decide, by decide, by decide, ?_⟩
  rintro ⟨k, hk, h⟩
  have hx : (2 : Nat) ^ 32 = max 1 (2 ^ 32 / 2 ^ k) := congrArg Vec3.x h
  have h2 : (2 : Nat) ^ 1 ≤ 2 ^ k := Nat.pow_le_pow_right (by decide) hk
  have h3 : (2 : Nat) ^ 32 / 2 ^ k ≤ 2 ^ 32 / 2 ^ 1 := Nat.div_le_div_left h2 (by decide)
  have h4 : (2 : Nat) ^ 32 / 2 ^ 1 = 2 ^ 31 := by decide
  have h5 : (2 : Nat) ^ 31 < 2 ^ 32 := by decide
  have h6 : (1 : Nat) < 2 ^ 32 := by decide
  omega

/-- The divisors evaluated by the search from a maximum divisor that is at least
one are exactly the numbers from the returned value up to the maximum divisor,
and the returned value is at least one. -/
theorem divisorsEvaluated_mem (n : Nat) :
    ∀ m, 1 ≤ m → ∃ r, detail.nextLowerOrEqualFactor m n = Except.ok r ∧ 1 ≤ r ∧
      ∀ d, d ∈ divisorsEvaluated m n ↔ (r ≤ d ∧ d ≤ m) := by
  intro m
  induction m with
  | zero => intro h; omega
  | succ k ih =>
    intro _
    by_cases hdiv : n % (k + 1) = 0
    · refine ⟨k + 1, by simp [detail.nextLowerOrEqualFactor, hdiv], by omega, ?_⟩
      intro d
      simp only [divisorsEvaluated, hdiv, ne_eq, not_true_eq_false, if_false,
        List.mem_singleton]
      omega
    · have hk : 1 ≤ k := by
        rcases Nat.eq_zero_or_pos k with h0 | h0
        · subst h0; simp [Nat.mod_one] at hdiv
        · exact h0
      obtain ⟨r, hr, h1, hmem⟩ := ih hk
      obtain ⟨r2, hr2, -, hle, -⟩ := nextLowerOrEqualFactor_spec n k hk
      have e : r2 = r := by rw [hr2] at hr; exact Except.ok.inj hr
      subst e
      refine ⟨r2, by simp [detail.nextLowerOrEqualFactor, hdiv, hr], h1, ?_⟩
      intro d
      simp only [divisorsEvaluated, hdiv, ne_eq, not_false_eq_true, if_true, List.mem_cons, hmem]
      omega

theorem divisorsEvaluated_pos (n m : Nat) (hm : 1 ≤ m) :
    ∀ d ∈ divisorsEvaluated m n, 1 ≤ d := by
  obtain ⟨r, -, h1, hmem⟩ := divisorsEvaluated_mem n m hm
  intro d hd
  have := (hmem d).mp hd
  omega

theorem halveWhile_ok_allPos (A : SizeArith) (uiMax : Nat) :
    ∀ (fuel : Nat) (v r : Vec3), v.allPos → halveWhile A uiMax fuel v = Except.ok r →
      r.allPos := by
  intro fuel
  induction fuel with
  | zero => intro v r _ h; simp [halveWhile] at h
  | succ fuel ih =>
    intro v r hv h
    by_cases hc : v.prod A > uiMax
    · simp only [halveWhile, hc, if_true] at h
      exact ih (halve v) r (halve_allPos v) h
    · simp only [halveWhile, hc, if_false] at h
      rw [← Except.ok.inj h]; exact hv

theorem halveWhile_error (A : SizeArith) (uiMax : Nat) :
    ∀ (fuel : Nat) (v : Vec3) (e : Fault), halveWhile A uiMax fuel v = Except.error e →
      e = Fault.outOfFuel := by
  intro fuel
  induction fuel with
  | zero =>
    intro v e h
    simp only [halveWhile] at h
    exact (Except.error.inj h).symm
  | succ fuel ih =>
    intro v e h
    by_cases hc : v.prod A > uiMax
    · simp only [halveWhile, hc, if_true] at h
      exact ih (halve v) e h
    · simp [halveWhile, hc] at h

theorem clipToCount_ok_allPos (A : SizeArith) (fuel uiMax : Nat) (c r : Vec3) (hc : c.allPos)
    (h : clipToCount A fuel uiMax c = Except.ok r) : r.allPos := by
  by_cases hgt : c.prod A > uiMax
  · simp only [clipToCount, hgt, if_true] at h
    exact halveWhile_ok_allPos A uiMax fuel c r hc h
  · simp only [clipToCount, hgt, if_false] at h
    rw [← Except.ok.inj h]; exact hc

theorem clipToCount_error (A : SizeArith) (fuel uiMax : Nat) (c : Vec3) (e : Fault)
    (h : clipToCount A fuel uiMax c = Except.error e) : e = Fault.outOfFuel := by
  by_cases hgt : c.prod A > uiMax
  · simp only [clipToCount, hgt, if_true] at h
    exact halveWhile_error A uiMax fuel c e h
  · simp [clipToCount, hgt] at h

/-- On a positive grid extent and limits with positive extent components no run
of `getValidWorkExtent` ends in a division by zero, whatever the fuel. -/
theorem getValidWorkExtent_ne_divisionByZero (NDEBUG : Bool) (A : SizeArith) (fuel : Nat)
    (TAcc : DeviceProperties) (accs : List DeviceProperties) (g : Vec3) (adaptive : Bool)
    (hg : g.allPos)
    (hl : (maxBlockLimits TAcc accs adaptive).m_v3uiBlockKernelsExtentMax.allPos) :
    getValidWorkExtent NDEBUG A fuel TAcc accs g adaptive ≠ Except.error Fault.divisionByZero := by
  have hc := clipToGrid_allPos _ g hl hg
  have hgx : g.x > 0 := hg.1
  have hgy : g.y > 0 := hg.2.1
  have hgz : g.z > 0 := hg.2.2
  cases hcc : clipToCount A fuel (maxBlockLimits TAcc accs adaptive).m_uiBlockKernelsCountMax
      (clipToGrid (maxBlockLimits TAcc accs adaptive).m_v3uiBlockKernelsExtentMax g) with
  | error e =>
    have he := clipToCount_error A fuel _ _ e hcc
    subst he
    simp only [getValidWorkExtent, hgx, hgy, hgz, not_true_eq_false, and_false, if_false, hcc, bind,
      Except.bind]
    simp
  | ok h =>
    have hpos := clipToCount_ok_allPos A fuel _ _ h hc hcc
    obtain ⟨bx, hbx, hx1, -⟩ := nextLowerOrEqualFactor_spec g.x h.x hpos.1
    obtain ⟨by_, hby, hy1, -⟩ := nextLowerOrEqualFactor_spec g.y h.y hpos.2.1
    obtain ⟨bz, hbz, hz1, -⟩ := nextLowerOrEqualFactor_spec g.z h.z hpos.2.2
    simp only [getValidWorkExtent, hgx, hgy, hgz, not_true_eq_false, and_false, if_false, hcc, hbx, hby,
      hbz, divide_ok _ _ hx1, divide_ok _ _ hy1, divide_ok _ _ hz1, bind, Except.bind, pure,
      Except.pure]
    simp

/-- C17 (no division by zero under the preconditions): for a grid extent with
positive components and limits that are at least one, `getValidWorkExtent`
returns, every divisor at which `nextLowerOrEqualFactor` evaluates
`uiDividend % uiDivisor` in the three searches is at least one, every component
of the block extent used as divisor of the grid extent is at least one, and no
run, whatever its fuel, ends in the division-by-zero fault. -/
theorem getValidWorkExtent_no_division_by_zero (NDEBUG : Bool) (A : SizeArith) (fuel : Nat)
    (TAcc : DeviceProperties) (accs : List DeviceProperties) (g : Vec3) (adaptive : Bool)
    (hg : g.allPos) (hl : (maxBlockLimits TAcc accs adaptive).valid)
    (hf : g.maxComp < 2 ^ fuel) :
    ∃ (h : Vec3) (w : WorkExtent),
      clipToCount A fuel (maxBlockLimits TAcc accs adaptive).m_uiBlockKernelsCountMax
        (clipToGrid (maxBlockLimits TAcc accs adaptive).m_v3uiBlockKernelsExtentMax g)
        = Except.ok h ∧
      getValidWorkExtent NDEBUG A fuel TAcc accs g adaptive = Except.ok w ∧
      (∀ d ∈ divisorsEvaluated h.x g.x, 1 ≤ d) ∧
      (∀ d ∈ divisorsEvaluated h.y g.y, 1 ≤ d) ∧
      (∀ d ∈ divisorsEvaluated h.z g.z, 1 ≤ d) ∧
      1 ≤ w.blockKernelsExtent.x ∧ 1 ≤ w.blockKernelsExtent.y ∧ 1 ≤ w.blockKernelsExtent.z ∧
      divide g.x w.blockKernelsExtent.x = Except.ok w.gridBlocksExtent.x ∧
      divide g.y w.blockKernelsExtent.y = Except.ok w.gridBlocksExtent.y ∧
      divide g.z w.blockKernelsExtent.z = Except.ok w.gridBlocksExtent.z ∧
      ∀ fuel2, getValidWorkExtent NDEBUG A fuel2 TAcc accs g adaptive
        ≠ Except.error Fault.divisionByZero := by
  obtain ⟨h, bx, by_, bz, hh, hpos, hbx, hby, hbz, hrun⟩ :=
    getValidWorkExtent_run NDEBUG A fuel TAcc accs g adaptive hg hl hf
  obtain ⟨bx2, hbx2, hx1, -⟩ := nextLowerOrEqualFactor_spec g.x h.x hpos.1
  obtain ⟨by2, hby2, hy1, -⟩ := nextLowerOrEqualFactor_spec g.y h.y hpos.2.1
  obtain ⟨bz2, hbz2, hz1, -⟩ := nextLowerOrEqualFactor_spec g.z h.z hpos.2.2
  have ex : bx2 = bx := by rw [hbx2] at hbx; exact Except.ok.inj hbx
  have ey : by2 = by_ := by rw [hby2] at hby; exact Except.ok.inj hby
  have ez : bz2 = bz := by rw [hbz2] at hbz; exact Except.ok.inj hbz
  subst ex ey ez
  exact ⟨h, _, hh, hrun, divisorsEvaluated_pos g.x h.x hpos.1,
    divisorsEvaluated_pos g.y h.y hpos.2.1, divisorsEvaluated_pos g.z h.z hpos.2.2,
    hx1, hy1, hz1, divide_ok _ _ hx1, divide_ok _ _ hy1, divide_ok _ _ hz1,
    fun fuel2 => getValidWorkExtent_ne_divisionByZero NDEBUG A fuel2 TAcc accs g adaptive hg hl.1⟩

/-- Instance of C17 at the grid extent (100, 64, 3) on a device with limits
((32, 32, 32), 100); the search for the divisor of 100 evaluates the divisors
8, 7, 6 and 5. -/
theorem getValidWorkExtent_no_division_by_zero_witness :
    (Vec3.mk 100 64 3).allPos ∧
    (maxBlockLimits ⟨⟨32, 32, 32⟩, 100⟩ [] true).valid ∧
    (Vec3.mk 100 64 3).maxComp < 2 ^ 7 ∧
    clipToCount SizeArith.wrapping 7 100 (clipToGrid ⟨32, 32, 32⟩ ⟨100, 64, 3⟩)
      = Except.ok ⟨8, 8, 1⟩ ∧
    divisorsEvaluated 8 100 = [8, 7, 6, 5] ∧
    ∃ (h : Vec3) (w : WorkExtent),
      clipToCount SizeArith.wrapping 7
        (maxBlockLimits ⟨⟨32, 32, 32⟩, 100⟩ [] true).m_uiBlockKernelsCountMax
        (clipToGrid (maxBlockLimits ⟨⟨32, 32, 32⟩, 100⟩ [] true).m_v3uiBlockKernelsExtentMax
          ⟨100, 64, 3⟩) = Except.ok h ∧
      getValidWorkExtent true SizeArith.wrapping 7 ⟨⟨32, 32, 32⟩, 100⟩ [] ⟨100, 64, 3⟩ true
        = Except.ok w ∧
      (∀ d ∈ divisorsEvaluated h.x 100, 1 ≤ d) ∧
      (∀ d ∈ divisorsEvaluated h.y 64, 1 ≤ d) ∧
      (∀ d ∈ divisorsEvaluated h.z 3, 1 ≤ d) ∧
      1 ≤ w.blockKernelsExtent.x ∧ 1 ≤ w.blockKernelsExtent.y ∧ 1 ≤ w.blockKernelsExtent.z ∧
      divide 100 w.blockKernelsExtent.x = Except.ok w.gridBlocksExtent.x ∧
      divide 64 w.blockKernelsExtent.y = Except.ok w.gridBlocksExtent.y ∧
      divide 3 w.blockKernelsExtent.z = Except.ok w.gridBlocksExtent.z ∧
      ∀ fuel2, getValidWorkExtent true SizeArith.wrapping fuel2 ⟨⟨32, 32, 32⟩, 100⟩ [] ⟨100, 64, 3⟩
        true ≠ Except.error Fault.divisionByZero :=
  ⟨by decide, by decide, by decide, by decide, by decide,
    getValidWorkExtent_no_division_by_zero true SizeArith.wrapping 7 ⟨⟨32, 32, 32⟩, 100⟩ []
      ⟨100, 64, 3⟩ true (by decide) (by decide) (by decide)⟩

end alpaka
